import Mathlib

/-!
# GRIB2 decode/resample core: a shallow embedding

The repository exposes only the build configuration (`config.h`) of the
wgrib2-based decode/resample core; the algorithmic components themselves
(Bitstream Reader, Section Parser, Codec Registry, Grid Definition Resolver,
Interpolation Engine) are not part of the visible source.  The configuration
file is embedded literally below; every other component is modelled from the
specification, faithful to its words, and the specification's testable
properties are settled against that model.

Numbers are modelled exactly: byte buffers are `List Nat` (each byte < 256 at
the producer), packed integers are `Nat`, scale factors are `ℤ`, and physical
field values are `ℚ` (the spec's floating-point values, modelled exactly so
that quantization-error statements are provable).
-/

namespace Grib2

/-! ## Byte and bit primitives -/

/-- Modelled from the spec: byte access into a buffer (reads beyond the end
yield 0; every consumer guards its own bounds). -/
def byteAt (b : List Nat) (i : Nat) : Nat := b.getD i 0

/-- Big-endian 16-bit read at byte offset `i`. -/
def be16 (b : List Nat) (i : Nat) : Nat := byteAt b i * 256 + byteAt b (i + 1)

/-- Big-endian 32-bit read at byte offset `i`. -/
def be32 (b : List Nat) (i : Nat) : Nat :=
  ((byteAt b i * 256 + byteAt b (i + 1)) * 256 + byteAt b (i + 2)) * 256 + byteAt b (i + 3)

/-- Signed 16-bit (two's complement) read at byte offset `i`. -/
def sint16 (b : List Nat) (i : Nat) : ℤ :=
  let r := be16 b i
  if r < 2 ^ 15 then (r : ℤ) else (r : ℤ) - 2 ^ 16

/-- Signed 32-bit (two's complement) read at byte offset `i`. -/
def sint32 (b : List Nat) (i : Nat) : ℤ :=
  let r := be32 b i
  if r < 2 ^ 31 then (r : ℤ) else (r : ℤ) - 2 ^ 32

/-- The `len` bytes starting at offset `start`. -/
def slice (b : List Nat) (start len : Nat) : List Nat :=
  (List.range len).map (fun k => byteAt b (start + k))

/-- Bit `i` of the buffer, MSB-first inside each byte (GRIB bit order). -/
def bitAt (buf : List Nat) (i : Nat) : Nat :=
  (byteAt buf (i / 8) >>> (7 - i % 8)) % 2

/-- Assemble `n` consecutive bits `f pos, f (pos+1), …` MSB-first into a
natural number. -/
def assembleBits (f : Nat → Nat) (pos : Nat) : Nat → Nat
  | 0 => 0
  | n + 1 => assembleBits f pos n * 2 + f (pos + n)

/-- The unsigned value of the `n` bits of the buffer starting at bit `pos`,
MSB first. -/
def bitsVal (buf : List Nat) (pos n : Nat) : Nat :=
  assembleBits (bitAt buf) pos n

/-- Bit length of a natural number, by explicit fuel (structural recursion so
the kernel can evaluate it). -/
def bitLenAux : Nat → Nat → Nat
  | 0, _ => 0
  | fuel + 1, n => if n = 0 then 0 else bitLenAux fuel (n / 2) + 1

/-- Bit length of a natural number: the least `w` with `n < 2 ^ w`. -/
def bitLen (n : Nat) : Nat := bitLenAux n n

/-! ## Error taxonomy (spec §7) -/

/-- Modelled from the spec: the error taxonomy of §7.  `formatError` covers
structurally malformed input (missing magic, unsupported edition, inconsistent
section length); the `unsupported…` kinds are recognized-but-unimplemented
features; `decodeError` is a codec that ran but produced inconsistent output;
`incompatibleGrid` is a method/grid mismatch; `outOfBounds` is a reader
overrun. -/
inductive Err where
  | formatError
  | unsupportedTemplate
  | unsupportedCodec
  | unsupportedProjection
  | unsupportedMethod
  | decodeError
  | incompatibleGrid
  | outOfBounds
deriving DecidableEq, Repr

/-! ## Bitstream Reader (spec §4.1)

Modelled from the spec: a sequential, random-access-capable reader over a byte
buffer with bit-level packing support.  The reader's whole state is the buffer
and a bit cursor; every operation returns the value read together with the
successor state, so statelessness beyond the cursor is structural. -/

structure BitReader where
  buf : List Nat
  pos : Nat
deriving DecidableEq, Repr

/-- Modelled from the spec: `readBits n` returns the next `n` bits
(`1 ≤ n ≤ 64`) as an unsigned integer and advances the cursor; fails with
`outOfBounds` if the read would exceed the buffer. -/
def readBits (r : BitReader) (n : Nat) : Except Err (Nat × BitReader) :=
  if n < 1 ∨ 64 < n then .error .formatError
  else if r.pos + n ≤ 8 * r.buf.length then
    .ok (bitsVal r.buf r.pos n, ⟨r.buf, r.pos + n⟩)
  else .error .outOfBounds

/-- Modelled from the spec: `readBytesAligned n` requires the cursor to be
byte-aligned (else `formatError`) and fails with `outOfBounds` past the end. -/
def readBytesAligned (r : BitReader) (n : Nat) : Except Err (List Nat × BitReader) :=
  if r.pos % 8 ≠ 0 then .error .formatError
  else if r.pos / 8 + n ≤ r.buf.length then
    .ok (slice r.buf (r.pos / 8) n, ⟨r.buf, r.pos + 8 * n⟩)
  else .error .outOfBounds

/-- Modelled from the spec: `seek bytePosition` repositions absolutely. -/
def seek (r : BitReader) (bytePosition : Nat) : BitReader :=
  ⟨r.buf, 8 * bytePosition⟩

/-! ## Build configuration

Embedded from `src/mrms-proxy-server/tools/grib2/wgrib2/config.h`: each active
`#define` becomes a `(name, value)` entry (flags with no value carry `""`).
Commented-out defines are kept in a separate list. -/

def configEntries : List (String × String) :=
  [("USE_REGEX", ""),
   ("USE_TIGGE", ""),
   ("USE_NAMES", "NCEP"),
   ("IPOLATES_LIB", "ip2lib_d"),
   ("USE_IPOLATES", "3"),
   ("USE_OPENMP", ""),
   ("MAKE_SHARED_LIB", ""),
   ("CPPFLAGS", " -I/Users/antoniomartinez/Desktop/d2d-sales-tracker/mrms-proxy-server/tools/grib2/include -Wall -Wmissing-prototypes -Wold-style-definition -Werror=format-security -O3 -DGFORTRAN -fopenmp -fPIC -g"),
   ("FFLAGS", " -c -O3 -fopenmp -fPIC -g"),
   ("USE_PROJ4", ""),
   ("USE_OPENJPEG", "openjpeg-2.5.0.tar.gz"),
   ("USE_AEC", "libaec-1.0.6.tar.gz"),
   ("USE_SPECTRAL", "1"),
   ("USE_NETCDF3", ""),
   ("CC", "gcc-15 (Homebrew GCC 15.1.0) 15.1.0"),
   ("FORTRAN", "GNU Fortran (Homebrew GCC 15.1.0) 15.1.0"),
   ("BUILD_COMMENTS", "stock build"),
   ("USE_PNG", "")]

/-- Embedded from `config.h`: the `#define` lines commented out in this build. -/
def configDisabled : List String :=
  ["DISABLE_ALARM", "DISABLE_STAT", "USE_UDF", "USE_G2CLIB", "USE_MYSQL",
   "WMO_VALIDATION"]

/-- The names of the active compile-time flags. -/
def configFlags : List String := configEntries.map (·.1)

/-- The value given to an active flag, if the flag is defined. -/
def flagValue (f : String) : Option String :=
  (configEntries.find? (fun e => e.1 == f)).map (·.2)

/-- Whether a flag is defined in this build. -/
def flagDefined (f : String) : Bool := configFlags.contains f

/-- Modelled from the spec (§9 design note): the runtime capability registry is
populated from whichever codec implementations the build flags link in.
Simple (template 0) and complex/run-length (templates 2 and 3) packing are
always built; the image and bit-plane codecs are gated by their flags. -/
def codecAvailable (tmpl : Nat) : Bool :=
  tmpl == 0 || tmpl == 2 || tmpl == 3 ||
  (tmpl == 40 && flagDefined "USE_OPENJPEG") ||
  (tmpl == 41 && flagDefined "USE_PNG") ||
  (tmpl == 42 && flagDefined "USE_AEC")

/-- Whether the spectral-transform subsystem is compiled in. -/
def spectralAvailable : Bool := flagDefined "USE_SPECTRAL"

/-- Modelled from the spec's enumeration in §1: which core algorithmic
subsystem (a compression codec, the interpolation library, spectral support,
or projection support) a given build flag gates, if any. -/
inductive Subsystem where
  | codecJpeg2000
  | codecPng
  | codecAec
  | interpolation
  | spectral
  | projection
deriving DecidableEq, Repr

/-- Modelled from the spec: the flags the spec's §1 sentence can be about —
compression codec flags, the interpolation-library flags, the spectral flag
and the projection flag.  Every other flag gates none of the four subsystem
kinds the sentence enumerates. -/
def subsystemOf : String → Option Subsystem
  | "USE_OPENJPEG" => some .codecJpeg2000
  | "USE_PNG" => some .codecPng
  | "USE_AEC" => some .codecAec
  | "USE_IPOLATES" => some .interpolation
  | "IPOLATES_LIB" => some .interpolation
  | "USE_SPECTRAL" => some .spectral
  | "USE_PROJ4" => some .projection
  | _ => none

/-! ## Codec Registry (spec §4.3) -/

/-- Raw (integer-level) codec parameters as read from the Data Representation
section, before the reference value is lifted to ℚ. -/
structure RawParams where
  templateNum : Nat
  bitWidth : Nat
  refI : ℤ
  binScale : ℤ
  decScale : ℤ
deriving DecidableEq, Repr

/-- Modelled from the spec (§3): bit width, reference value, binary/decimal
scale factors, plus the Data Representation template number that keys the
registry.  Consumed by the Codec Registry. -/
structure CodecParameters where
  templateNum : Nat
  bitWidth : Nat
  reference : ℚ
  binaryScale : ℤ
  decimalScale : ℤ

/-- Lift raw parameters to the ℚ-valued `CodecParameters`. -/
def interpretParams (p : RawParams) : CodecParameters :=
  ⟨p.templateNum, p.bitWidth, (p.refI : ℚ), p.binScale, p.decScale⟩

/-- Modelled from the spec: every codec reconstructs physical values as
`(packedValue × 2^binaryScale + reference) × 10^(−decimalScale)`. -/
def reconstruct (p : CodecParameters) (packed : Nat) : ℚ :=
  ((packed : ℚ) * (2 : ℚ) ^ p.binaryScale + p.reference) * (10 : ℚ) ^ (-p.decimalScale)

/-- Modelled from the spec: simple packing reads `count` fixed-width integers
directly from the packed bit stream (bit width 0 means every value equals the
reference, i.e. packed value 0). -/
def simplePacked (data : List Nat) (width count : Nat) : Except Err (List Nat) :=
  if width = 0 then .ok (List.replicate count 0)
  else if count * width ≤ 8 * data.length then
    .ok ((List.range count).map (fun j => bitsVal data (j * width) width))
  else .error .decodeError

/-- Modelled from the spec: complex/run-length packing decodes group
boundaries and per-group reference/width overrides, then applies the same
reconstruction formula.  Groups are laid out as a 16-bit group reference, an
8-bit group width, a 16-bit group length, then the group's packed values. -/
def complexGroups (data : List Nat) : Nat → Nat → Option (List Nat)
  | _, 0 => some []
  | pos, g + 1 =>
    if pos + 40 ≤ 8 * data.length then
      let ref := bitsVal data pos 16
      let w := bitsVal data (pos + 16) 8
      let len := bitsVal data (pos + 24) 16
      if pos + 40 + len * w ≤ 8 * data.length then
        match complexGroups data (pos + 40 + len * w) g with
        | some rest =>
          some (((List.range len).map (fun j => ref + bitsVal data (pos + 40 + j * w) w)) ++ rest)
        | none => none
      else none
    else none

/-- Complex packing: the first byte carries the group count, groups follow. -/
def complexPacked (data : List Nat) : Except Err (List Nat) :=
  match complexGroups data 8 (byteAt data 0) with
  | some vals => .ok vals
  | none => .error .decodeError

/-- Modelled from the spec: the image-based (JPEG2000-family, PNG-family) and
CCSDS/AEC codecs first recover integer sample values from the compressed
bytes and then apply the same linear reconstruction.  The decompression
algorithms themselves are beyond the spec's detail; sample recovery is
modelled as one byte per sample, which preserves the properties under
verification (count discipline and linear reconstruction). -/
def rasterPacked (data : List Nat) (count : Nat) : Except Err (List Nat) :=
  .ok (data.take count)

/-- Dispatch on the Data Representation template number. -/
def rawCodec (data : List Nat) (tmpl width count : Nat) : Except Err (List Nat) :=
  if tmpl = 0 then simplePacked data width count
  else if tmpl = 2 ∨ tmpl = 3 then complexPacked data
  else rasterPacked data count

/-- Modelled from the spec: a codec that ran but produced the wrong number of
values is an internal invariant violation, treated as a fatal `decodeError`. -/
def checkCount (count : Nat) : Except Err (List Nat) → Except Err (List Nat)
  | .error e => .error e
  | .ok vs => if vs.length = count then .ok vs else .error .decodeError

/-- Modelled from the spec: the registry dispatches on the template number,
fails with `unsupportedCodec` when no handler is linked in, and enforces the
exact-count discipline on the codec's output, so that `decode` never returns
a short or long field. -/
def decodePackedRaw (data : List Nat) (tmpl width count : Nat) : Except Err (List Nat) :=
  if ¬ codecAvailable tmpl then .error .unsupportedCodec
  else checkCount count (rawCodec data tmpl width count)

/-- Modelled from the spec (§4.3 contract): `decode(dataSection,
CodecParameters, pointCount)` returns a numeric field of exactly `pointCount`
values or fails. -/
def decode (data : List Nat) (p : CodecParameters) (count : Nat) : Except Err (List ℚ) :=
  Except.map (fun vs => vs.map (reconstruct p)) (decodePackedRaw data p.templateNum p.bitWidth count)

/-! ## Simple-packing encoder (spec §8 round-trip)

Modelled from the spec: the encoder of the round-trip property.  Given the
binary and decimal scale factors it chooses the reference value as the
minimum of the decimally-scaled values (so packed values are non-negative)
and a bit width wide enough for the largest packed value, quantizes each
value by flooring, and packs the fixed-width integers MSB-first into bytes. -/

/-- The decimally scaled values `v × 10^decimalScale`. -/
def scaledVals (field : List ℚ) (D : ℤ) : List ℚ :=
  field.map (fun v => v * (10 : ℚ) ^ D)

/-- The encoder's reference value: the minimum scaled value (0 for an empty
field). -/
def refValue (field : List ℚ) (D : ℤ) : ℚ :=
  match scaledVals field D with
  | [] => 0
  | x :: xs => xs.foldl min x

/-- The quantized (packed) integers of simple packing. -/
def packedOf (field : List ℚ) (E D : ℤ) : List Nat :=
  (scaledVals field D).map (fun x => (⌊(x - refValue field D) / (2 : ℚ) ^ E⌋).toNat)

/-- The encoder's bit width: wide enough for every packed value, at least 1. -/
def widthOf (field : List ℚ) (E D : ℤ) : Nat :=
  (packedOf field E D).foldl (fun a v => max a (bitLen v)) 1

/-- Bit `i` of the concatenated fixed-width big-endian packed values. -/
def packBitAt (vals : List Nat) (w i : Nat) : Nat :=
  (vals.getD (i / w) 0 >>> (w - 1 - i % w)) % 2

/-- Pack fixed-width integers MSB-first into bytes. -/
def encodeBytes (vals : List Nat) (w : Nat) : List Nat :=
  (List.range ((vals.length * w + 7) / 8)).map
    (fun j => assembleBits (packBitAt vals w) (8 * j) 8)

/-- Modelled from the spec: a `w`-bit slot can store only `w` bits — a
quantized value too large for the caller-chosen width saturates at the
largest representable code `2^w − 1`. -/
def clampPacked (w p : Nat) : Nat := min p (2 ^ w - 1)

/-- The packed integers as stored at a caller-chosen bit width `w`. -/
def packedOfW (field : List ℚ) (E D : ℤ) (w : Nat) : List Nat :=
  (packedOf field E D).map (clampPacked w)

/-- The packed data section produced by the simple-packing encoder at a
caller-chosen bit width (the encoder's own choice is `widthOf`). -/
def encodeDataW (field : List ℚ) (E D : ℤ) (w : Nat) : List Nat :=
  encodeBytes (packedOfW field E D w) w

/-- The codec parameters produced by the simple-packing encoder at a
caller-chosen bit width. -/
def encodeParamsW (field : List ℚ) (E D : ℤ) (w : Nat) : CodecParameters :=
  ⟨0, w, refValue field D, E, D⟩

/-! ## Grid Definition Resolver (spec §4.4) -/

/-- The projection kinds the spec's resolver recognizes. -/
inductive Projection where
  | latlon
  | gaussian
  | lambert
  | polarStereo
  | rotatedLatlon
deriving DecidableEq, Repr

/-- Raw (integer-level) grid parameters as read from the Grid Definition
section: dimensions, origin and spacing in micro-degrees, scan flags. -/
structure RawGrid where
  proj : Projection
  ni : Nat
  nj : Nat
  lat0i : ℤ
  lon0i : ℤ
  dlati : ℤ
  dloni : ℤ
  scan : Nat
deriving DecidableEq, Repr

/-- Modelled from the spec (§3): the canonical, codec-independent grid
descriptor — projection kind, dimensions, geographic origin, spacing, and the
recorded scan-direction flags. -/
structure GridDescriptor where
  proj : Projection
  ni : Nat
  nj : Nat
  lat0 : ℚ
  lon0 : ℚ
  dlat : ℚ
  dlon : ℚ
  scan : Nat

/-- Micro-degrees to degrees. -/
def interpretGrid (g : RawGrid) : GridDescriptor :=
  ⟨g.proj, g.ni, g.nj, (g.lat0i : ℚ) / 1000000, (g.lon0i : ℚ) / 1000000,
   (g.dlati : ℚ) / 1000000, (g.dloni : ℚ) / 1000000, g.scan⟩

/-- The number of grid points a descriptor describes. -/
def pointCount (g : GridDescriptor) : Nat := g.ni * g.nj

/-- Modelled from the spec: the resolver decodes the Grid Definition
section's template code.  The regular lat/lon template (0) is decoded
concretely — template number, dimensions, origin, spacing in micro-degrees
and the scan flag byte; the remaining projections' parameter decodings are
beyond the byte-level detail the spec provides, so any other template
resolves to `unsupportedProjection`. -/
def resolveRaw (body : List Nat) : Except Err RawGrid :=
  if be16 body 0 = 0 then
    if 27 ≤ body.length then
      .ok ⟨.latlon, be32 body 2, be32 body 6, sint32 body 10, sint32 body 14,
           sint32 body 18, sint32 body 22, byteAt body 26⟩
    else .error .formatError
  else .error .unsupportedProjection

/-- `resolve(gridDefinitionSection)` returns a `GridDescriptor` or fails. -/
def resolve (body : List Nat) : Except Err GridDescriptor :=
  Except.map interpretGrid (resolveRaw body)

/-! ## Section Parser (spec §4.2) -/

/-- A typed, length-prefixed section: its number and its body (the bytes
after the 4-byte length and 1-byte number). -/
structure RawSection where
  num : Nat
  body : List Nat
deriving DecidableEq, Repr

/-- A parse failure: the error kind together with the number of bytes
consumed when that count is determinable from the section-length fields
already read (spec §7 propagation policy). -/
structure ParseFailure where
  kind : Err
  consumed : Option Nat
deriving DecidableEq, Repr

/-- The `7777` End-of-message marker. -/
def endMarker : List Nat := [55, 55, 55, 55]

/-- The `GRIB` indicator magic. -/
def gribMagic : List Nat := [71, 82, 73, 66]

/-- Modelled from the spec: repeatedly read a 4-byte section length and
1-byte section number, collect the section bodies, and stop at the
End-of-message marker, reporting the consumed byte count.  Every failure
inside the loop reports the byte offset reached through the section-length
fields already read. -/
def sectionLoop (buf : List Nat) : Nat → Nat → Except ParseFailure (List RawSection × Nat)
  | 0, pos => .error ⟨.formatError, some pos⟩
  | fuel + 1, pos =>
    if pos + 4 ≤ buf.length ∧ slice buf pos 4 = endMarker then
      .ok ([], pos + 4)
    else if pos + 5 ≤ buf.length then
      if 5 ≤ be32 buf pos ∧ pos + be32 buf pos ≤ buf.length then
        match sectionLoop buf fuel (pos + be32 buf pos) with
        | .ok (secs, n) =>
          .ok (⟨byteAt buf (pos + 4), slice buf (pos + 5) (be32 buf pos - 5)⟩ :: secs, n)
        | .error e => .error e
      else .error ⟨.formatError, some pos⟩
    else .error ⟨.formatError, some pos⟩

/-- The raw decoded message: identification payload, grid, codec parameters,
optional validity bitmap and the packed field values, all at integer level. -/
structure RawMessage where
  ident : List Nat
  grid : RawGrid
  params : RawParams
  bitmap : Option (List Bool)
  packed : List Nat
deriving DecidableEq, Repr

/-- Modelled from the spec (§3): one decoded GRIB2 record — identification
metadata, resolved grid, codec parameters, optional validity bitmap, and the
decoded numeric field (row-major over the source grid). -/
structure Message where
  ident : List Nat
  grid : GridDescriptor
  params : CodecParameters
  bitmap : Option (List Bool)
  field : List ℚ

/-- Decode the Data Representation section body: 2-byte template number,
4-byte signed reference, 2-byte signed binary and decimal scale factors,
1-byte bit width. -/
def paramsRaw (body : List Nat) : Except Err RawParams :=
  if 11 ≤ body.length then
    .ok ⟨be16 body 0, byteAt body 10, sint32 body 2, sint16 body 6, sint16 body 8⟩
  else .error .formatError

/-- Decode the Bitmap section body: first byte 255 means no bitmap, 0 means a
bitmap of `count` bits follows (packed MSB-first from the second byte). -/
def bitmapRaw (body : List Nat) (count : Nat) : Except Err (Option (List Bool)) :=
  if byteAt body 0 = 255 then .ok none
  else if byteAt body 0 = 0 then
    if count ≤ 8 * (body.length - 1) then
      .ok (some ((List.range count).map (fun k => bitAt body (8 + k) == 1)))
    else .error .formatError
  else .error .formatError

/-- The number of the `k`-th parsed section. -/
def secNum (secs : List RawSection) (k : Nat) : Nat := (secs.getD k ⟨0, []⟩).num

/-- The body of the `k`-th parsed section. -/
def secBody (secs : List RawSection) (k : Nat) : List Nat := (secs.getD k ⟨0, []⟩).body

/-- Modelled from the spec: assemble the parsed sections, in the fixed
canonical order Identification (1), Grid Definition (3), Product Definition
(4), Data Representation (5), Bitmap (6), Data (7), into a raw message; an
out-of-order or missing mandatory section is a structural error.  The Data
section is decoded through the Codec Registry with the grid's point count. -/
def assemble (secs : List RawSection) : Except Err RawMessage :=
  if secs.length = 6 ∧ secNum secs 0 = 1 ∧ secNum secs 1 = 3 ∧ secNum secs 2 = 4 ∧
      secNum secs 3 = 5 ∧ secNum secs 4 = 6 ∧ secNum secs 5 = 7 then
    match resolveRaw (secBody secs 1) with
    | .error e => .error e
    | .ok g =>
      match paramsRaw (secBody secs 3) with
      | .error e => .error e
      | .ok p =>
        match bitmapRaw (secBody secs 4) (g.ni * g.nj) with
        | .error e => .error e
        | .ok bm =>
          match decodePackedRaw (secBody secs 5) p.templateNum p.bitWidth (g.ni * g.nj) with
          | .error e => .error e
          | .ok packed => .ok ⟨secBody secs 0, g, p, bm, packed⟩
  else .error .formatError

/-- The indicator checks of the parser: buffer long enough for the 4-byte
magic and the edition byte, magic present, edition 2. -/
abbrev headerOk (buf : List Nat) : Prop :=
  5 ≤ buf.length ∧ slice buf 0 4 = gribMagic ∧ byteAt buf 4 = 2

/-- Modelled from the spec: the Section Parser at integer level.  Reads the
4-byte indicator magic and the edition number (rejecting unsupported
editions), walks the length-prefixed sections up to the End-of-message
marker, and assembles the message, reporting the consumed byte count. -/
def parseRaw (buf : List Nat) : Except ParseFailure (RawMessage × Nat) :=
  if headerOk buf then
    match sectionLoop buf buf.length 5 with
    | .error e => .error e
    | .ok (secs, n) =>
      match assemble secs with
      | .error k => .error ⟨k, some n⟩
      | .ok raw => .ok (raw, n)
  else .error ⟨.formatError, none⟩

/-- Lift a raw message to the ℚ-valued `Message`: the field is the packed
values pushed through the codec reconstruction formula. -/
def interpret (raw : RawMessage) : Message :=
  ⟨raw.ident, interpretGrid raw.grid, interpretParams raw.params, raw.bitmap,
   raw.packed.map (reconstruct (interpretParams raw.params))⟩

/-- Modelled from the spec: given a byte buffer, produce a `Message` and the
consumed byte count, or fail with a typed error. -/
def parse (buf : List Nat) : Except ParseFailure (Message × Nat) :=
  Except.map (fun rn => (interpret rn.1, rn.2)) (parseRaw buf)

/-! ## Interpolation Engine (spec §4.5) -/

/-- The selectable interpolation methods. -/
inductive Method where
  | bilinear
  | nearest
  | budget
  | spectral
deriving DecidableEq, Repr

/-- Modelled from the spec (§3): the caller-supplied target grid, chosen
method, and the caller-configurable missing-value marker. -/
structure InterpolationRequest where
  target : GridDescriptor
  method : Method
  missingValue : ℚ

/-- Modelled from the spec (§6 output): the resampled field plus the
diagnostic missing-point count and fraction. -/
structure ResampleResult where
  values : List ℚ
  missingCount : Nat
  missingFraction : ℚ

/-- The longitude of grid column `i` (regular lat/lon geometry). -/
def lonAt (g : GridDescriptor) (i : Nat) : ℚ := g.lon0 + i * g.dlon

/-- The latitude of grid row `j` (regular lat/lon geometry). -/
def latAt (g : GridDescriptor) (j : Nat) : ℚ := g.lat0 + j * g.dlat

/-- Whether fractional grid coordinates `(u, v)` fall inside the source
grid's geographic coverage. -/
abbrev inDomain (g : GridDescriptor) (u v : ℚ) : Prop :=
  0 ≤ u ∧ u ≤ (g.ni : ℚ) - 1 ∧ 0 ≤ v ∧ v ≤ (g.nj : ℚ) - 1

/-- Bilinear interpolation at fractional grid coordinates `(u, v)`: locate
the enclosing source cell (clamping the cell origin so the right/top edges
use the last cell) and blend the four corner values. -/
def bilinearAt (field : List ℚ) (g : GridDescriptor) (u v : ℚ) : ℚ :=
  let i0 := min (⌊u⌋.toNat) (g.ni - 2)
  let j0 := min (⌊v⌋.toNat) (g.nj - 2)
  let fu := u - (i0 : ℚ)
  let fv := v - (j0 : ℚ)
  (1 - fu) * (1 - fv) * field.getD (j0 * g.ni + i0) 0 +
  fu * (1 - fv) * field.getD (j0 * g.ni + i0 + 1) 0 +
  (1 - fu) * fv * field.getD ((j0 + 1) * g.ni + i0) 0 +
  fu * fv * field.getD ((j0 + 1) * g.ni + i0 + 1) 0

/-- Nearest-neighbor interpolation at fractional grid coordinates. -/
def nearestAt (field : List ℚ) (g : GridDescriptor) (u v : ℚ) : ℚ :=
  field.getD (min (⌊v + 1/2⌋.toNat) (g.nj - 1) * g.ni + min (⌊u + 1/2⌋.toNat) (g.ni - 1)) 0

/-- Modelled from the spec: the per-method value at in-domain coordinates.
Budget (area-weighted) accumulation and spherical-harmonic synthesis are
beyond the spec's numeric detail; both are modelled as exact point sampling,
which preserves the properties under verification (domain policy, counts). -/
def methodValue (field : List ℚ) (g : GridDescriptor) (m : Method) (u v : ℚ) : ℚ :=
  match m with
  | .bilinear => bilinearAt field g u v
  | .nearest => nearestAt field g u v
  | .budget => nearestAt field g u v
  | .spectral => nearestAt field g u v

/-- One target point: map its geographic position into fractional source
coordinates; points outside the source coverage get the caller-configurable
missing-value marker (never an extrapolated value) and are flagged. -/
def interpOne (field : List ℚ) (src : GridDescriptor) (m : Method) (missing : ℚ)
    (lat lon : ℚ) : ℚ × Bool :=
  let u := (lon - src.lon0) / src.dlon
  let v := (lat - src.lat0) / src.dlat
  if inDomain src u v then (methodValue field src m u v, false)
  else (missing, true)

/-- Modelled from the spec (§4.5 contract): `resample(field, sourceGrid,
request)` returns a new field sized to the target grid with the diagnostic
missing count and fraction, or fails — the spectral method when the spectral
subsystem is absent, and bilinear on a reduced/Gaussian source grid, are
errors. -/
def resample (field : List ℚ) (src : GridDescriptor) (req : InterpolationRequest) :
    Except Err ResampleResult :=
  if req.method = .spectral ∧ ¬ spectralAvailable then .error .unsupportedMethod
  else if req.method = .bilinear ∧ src.proj = .gaussian then .error .incompatibleGrid
  else
    let tc := req.target.ni * req.target.nj
    let pts := (List.range tc).map (fun k =>
      interpOne field src req.method req.missingValue
        (latAt req.target (k / req.target.ni)) (lonAt req.target (k % req.target.ni)))
    let miss := pts.countP (·.2)
    .ok ⟨pts.map (·.1), miss, if tc = 0 then 0 else (miss : ℚ) / (tc : ℚ)⟩

/-! ## Concrete inputs used by the witnesses -/

/-- A complete well-formed one-message buffer: indicator (`GRIB`, edition 2),
sections 1, 3 (regular lat/lon 2×2, 1° spacing), 4, 5 (simple packing, 8-bit,
zero scales), 6 (bitmap present, all points valid), 7 (four packed bytes),
and the `7777` end marker — 85 bytes in total. -/
def exampleBuf : List Nat :=
  [71, 82, 73, 66, 2] ++
  [0, 0, 0, 7, 1, 7, 0] ++
  ([0, 0, 0, 32, 3] ++
    [0, 0, 0, 0, 0, 2, 0, 0, 0, 2, 0, 0, 0, 0, 0, 0, 0, 0,
     0, 15, 66, 64, 0, 15, 66, 64, 0]) ++
  [0, 0, 0, 5, 4] ++
  ([0, 0, 0, 16, 5] ++ [0, 0, 0, 0, 0, 0, 0, 0, 0, 0, 8]) ++
  [0, 0, 0, 7, 6, 0, 240] ++
  [0, 0, 0, 9, 7, 10, 20, 30, 40] ++
  [55, 55, 55, 55]

/-- The raw message `exampleBuf` parses to. -/
def exampleRawMsg : RawMessage :=
  ⟨[7, 0], ⟨.latlon, 2, 2, 0, 0, 1000000, 1000000, 0⟩, ⟨0, 8, 0, 0, 0⟩,
   some [true, true, true, true], [10, 20, 30, 40]⟩

/-- A buffer whose indicator is well-formed but whose first section declares
an impossible length (3 < 5), so parsing fails after the header. -/
def exampleBadBuf : List Nat := [71, 82, 73, 66, 2, 0, 0, 0, 3, 1]

/-- The Grid Definition body of `exampleBuf`'s section 3. -/
def exampleGridBody : List Nat :=
  [0, 0, 0, 0, 0, 2, 0, 0, 0, 2, 0, 0, 0, 0, 0, 0, 0, 0,
   0, 15, 66, 64, 0, 15, 66, 64, 0]

/-- A 4×4 regular lat/lon source grid at the origin with 1° spacing. -/
def demoSrc : GridDescriptor := ⟨.latlon, 4, 4, 0, 0, 1, 1, 0⟩

/-- Known values on `demoSrc`, row-major. -/
def demoField : List ℚ :=
  [11, 12, 13, 14, 21, 22, 23, 24, 31, 32, 33, 34, 41, 42, 43, 44]

/-- A 2×2 target grid co-located with four of `demoSrc`'s points
(lat/lon 1 and 3). -/
def demoTarget : GridDescriptor := ⟨.latlon, 2, 2, 1, 1, 2, 2, 0⟩

/-- A 2×2 target grid lying entirely outside `demoSrc`'s coverage. -/
def demoFarTarget : GridDescriptor := ⟨.latlon, 2, 2, 50, 50, 1, 1, 0⟩

/-- The raw grid encoded in `exampleGridBody`. -/
def exampleGridRaw : RawGrid := ⟨.latlon, 2, 2, 0, 0, 1000000, 1000000, 0⟩

/-! ### Lemmas about the bit primitives -/

theorem bitAt_le_one (buf : List Nat) (i : Nat) : bitAt buf i ≤ 1 := by
  have := Nat.mod_lt (byteAt buf (i / 8) >>> (7 - i % 8)) (show 0 < 2 by omega)
  simpa [bitAt] using Nat.lt_succ_iff.mp this

theorem assembleBits_lt (f : Nat → Nat) (pos : Nat) (hf : ∀ i, f i ≤ 1) :
    ∀ n, assembleBits f pos n < 2 ^ n := by
  intro n
  induction n with
  | zero => simp [assembleBits]
  | succ k ih =>
    have hb := hf (pos + k)
    simp only [assembleBits, Nat.pow_succ]
    omega

theorem assembleBits_shift (f : Nat → Nat) (pos : Nat) (hf : ∀ i, f i ≤ 1) :
    ∀ n m, m < n → (assembleBits f pos n >>> (n - 1 - m)) % 2 = f (pos + m) := by
  intro n
  induction n with
  | zero => omega
  | succ k ih =>
    intro m hm
    rcases Nat.lt_or_ge m k with hmk | hmk
    · have hstep : assembleBits f pos (k + 1) = assembleBits f pos k * 2 + f (pos + k) := rfl
      have hshift : k + 1 - 1 - m = (k - 1 - m) + 1 := by omega
      have hb := hf (pos + k)
      have hdiv : (assembleBits f pos k * 2 + f (pos + k)) / 2 = assembleBits f pos k := by
        omega
      rw [hstep, hshift, Nat.shiftRight_succ_inside]
      rw [hdiv]
      exact ih m hmk
    · have hmk' : m = k := by omega
      subst hmk'
      have hstep : assembleBits f pos (m + 1) = assembleBits f pos m * 2 + f (pos + m) := rfl
      have hb := hf (pos + m)
      have : m + 1 - 1 - m = 0 := by omega
      rw [hstep, this, Nat.shiftRight_zero]
      omega

theorem assembleBits_eq_of_bits (f : Nat → Nat) :
    ∀ n pos v, v < 2 ^ n → (∀ i, i < n → f (pos + i) = (v >>> (n - 1 - i)) % 2) →
      assembleBits f pos n = v := by
  intro n
  induction n with
  | zero => intro pos v hv _; simp [assembleBits]; omega
  | succ k ih =>
    intro pos v hv hbits
    have hstep : assembleBits f pos (k + 1) = assembleBits f pos k * 2 + f (pos + k) := rfl
    have hlast : f (pos + k) = v % 2 := by
      have := hbits k (by omega)
      simpa using this
    have hrec : assembleBits f pos k = v / 2 := by
      apply ih pos (v / 2)
      · rw [Nat.pow_succ] at hv; omega
      · intro i hi
        have := hbits i (by omega)
        have hsh : k + 1 - 1 - i = (k - 1 - i) + 1 := by omega
        rw [hsh, Nat.shiftRight_succ_inside] at this
        exact this
    rw [hstep, hlast, hrec]
    omega

theorem bitLenAux_lt (fuel n : Nat) (h : n ≤ fuel) : n < 2 ^ bitLenAux fuel n := by
  induction fuel generalizing n with
  | zero =>
    have : n = 0 := by omega
    simp [this, bitLenAux]
  | succ k ih =>
    by_cases h0 : n = 0
    · simp [h0, bitLenAux]
    · have hdiv : n / 2 ≤ k := by omega
      have := ih (n / 2) hdiv
      simp only [bitLenAux, h0, if_false, Nat.pow_succ]
      omega

theorem lt_two_pow_bitLen (n : Nat) : n < 2 ^ bitLen n :=
  bitLenAux_lt n n (Nat.le_refl n)

/-- `getD` of a `map` over `range` evaluates pointwise. -/
theorem getD_map_range {α : Type} (f : Nat → α) (n k : Nat) (d : α) (hk : k < n) :
    ((List.range n).map f).getD k d = f k := by
  rw [List.getD_eq_getElem?_getD, List.getElem?_map, List.getElem?_range hk]
  rfl

theorem length_map_range {α : Type} (f : Nat → α) (n : Nat) :
    ((List.range n).map f).length = n := by simp

/-! ## Helper lemmas about the registry and the parser -/

theorem checkCount_ok {count : Nat} {r : Except Err (List Nat)} {vs : List Nat}
    (h : checkCount count r = .ok vs) : vs.length = count := by
  cases r with
  | error e => simp [checkCount] at h
  | ok ws =>
    simp only [checkCount] at h
    split at h
    · injection h with h
      rw [← h]
      assumption
    · simp at h

theorem decodePackedRaw_length {data : List Nat} {tmpl width count : Nat} {vs : List Nat}
    (h : decodePackedRaw data tmpl width count = .ok vs) : vs.length = count := by
  rw [decodePackedRaw] at h
  split at h
  · simp at h
  · exact checkCount_ok h

theorem bitmapRaw_length {body : List Nat} {count : Nat} {bm : List Bool}
    (h : bitmapRaw body count = .ok (some bm)) : bm.length = count := by
  rw [bitmapRaw] at h
  split at h
  · simp at h
  · split at h
    · split at h
      · injection h with h
        injection h with h
        rw [← h]; simp
      · simp at h
    · simp at h

theorem assemble_invariants {secs : List RawSection} {raw : RawMessage}
    (h : assemble secs = .ok raw) :
    raw.packed.length = raw.grid.ni * raw.grid.nj ∧
      ∀ bm, raw.bitmap = some bm → bm.length = raw.grid.ni * raw.grid.nj := by
  rw [assemble] at h
  split at h
  · split at h
    · simp at h
    · split at h
      · simp at h
      · split at h
        · simp at h
        · split at h
          · simp at h
          · rename_i xg g hg xp p hp xbm bm hbm xpk packed hpk
            injection h with h
            subst h
            refine ⟨decodePackedRaw_length hpk, ?_⟩
            intro bm' hbm'
            have h2 : bm = some bm' := hbm'
            rw [h2] at hbm
            exact bitmapRaw_length hbm
  · simp at h

theorem parseRaw_ok_parts {buf : List Nat} {raw : RawMessage} {n : Nat}
    (h : parseRaw buf = .ok (raw, n)) :
    headerOk buf ∧ ∃ secs, sectionLoop buf buf.length 5 = .ok (secs, n) ∧
      assemble secs = .ok raw := by
  rw [parseRaw] at h
  split at h
  · rename_i hhd
    refine ⟨hhd, ?_⟩
    split at h
    · simp at h
    · rename_i secs n' hloop
      split at h
      · simp at h
      · rename_i raw' hasm
        injection h with h
        injection h with h1 h2
        subst h1; subst h2
        exact ⟨secs, hloop, hasm⟩
  · simp at h

/-! ## Claim theorems -/

/-- C1.  For every data section, codec parameters and requested `pointCount`,
and every supported codec, `decode` either returns a field of exactly
`pointCount` values or fails — never a short or long field. -/
theorem decode_length_exact (data : List Nat) (p : CodecParameters) (count : Nat)
    (field : List ℚ) (h : decode data p count = .ok field) : field.length = count := by
  rw [decode] at h
  cases hraw : decodePackedRaw data p.templateNum p.bitWidth count with
  | error e => rw [hraw] at h; simp [Except.map] at h
  | ok vs =>
    rw [hraw] at h
    simp only [Except.map] at h
    injection h with h
    rw [← h, List.length_map]
    exact decodePackedRaw_length hraw

/-- Witness for C1 at a concrete simple-packing decode. -/
theorem decode_length_exact_witness :
    decode [10, 20, 30, 40] (interpretParams ⟨0, 8, 0, 0, 0⟩) 4 =
      .ok ([10, 20, 30, 40].map (reconstruct (interpretParams ⟨0, 8, 0, 0, 0⟩))) ∧
    ([10, 20, 30, 40].map (reconstruct (interpretParams ⟨0, 8, 0, 0, 0⟩))).length = 4 :=
  ⟨rfl, decode_length_exact [10, 20, 30, 40] (interpretParams ⟨0, 8, 0, 0, 0⟩) 4
    ([10, 20, 30, 40].map (reconstruct (interpretParams ⟨0, 8, 0, 0, 0⟩))) rfl⟩

/-- C6.  The Bitstream Reader contract: `readBits n` (1 ≤ n ≤ 64) returns the
next `n` bits as an unsigned integer (< 2^n) and advances the cursor by `n`,
leaving the buffer untouched; reads that would exceed the buffer fail with
`outOfBounds`; `readBytesAligned` fails with `formatError` whenever the
cursor is not byte-aligned, fails with `outOfBounds` past the end, and
otherwise returns the bytes and advances the cursor. -/
theorem bitreader_contract :
    (∀ r : BitReader, ∀ n, 1 ≤ n → n ≤ 64 → r.pos + n ≤ 8 * r.buf.length →
      readBits r n = .ok (bitsVal r.buf r.pos n, ⟨r.buf, r.pos + n⟩) ∧
        bitsVal r.buf r.pos n < 2 ^ n) ∧
    (∀ r : BitReader, ∀ n, 1 ≤ n → n ≤ 64 → 8 * r.buf.length < r.pos + n →
      readBits r n = .error .outOfBounds) ∧
    (∀ r : BitReader, ∀ n, r.pos % 8 ≠ 0 → readBytesAligned r n = .error .formatError) ∧
    (∀ r : BitReader, ∀ n, r.pos % 8 = 0 → r.buf.length < r.pos / 8 + n →
      readBytesAligned r n = .error .outOfBounds) ∧
    (∀ r : BitReader, ∀ n, r.pos % 8 = 0 → r.pos / 8 + n ≤ r.buf.length →
      readBytesAligned r n = .ok (slice r.buf (r.pos / 8) n, ⟨r.buf, r.pos + 8 * n⟩)) := by
  refine ⟨?_, ?_, ?_, ?_, ?_⟩
  · intro r n h1 h64 hin
    constructor
    · rw [readBits, if_neg (by omega), if_pos hin]
    · exact assembleBits_lt _ _ (bitAt_le_one r.buf) n
  · intro r n h1 h64 hout
    rw [readBits, if_neg (by omega), if_neg (by omega)]
  · intro r n hmis
    rw [readBytesAligned, if_pos hmis]
  · intro r n hal hout
    rw [readBytesAligned, if_neg (by omega), if_neg (by omega)]
  · intro r n hal hin
    rw [readBytesAligned, if_neg (by omega), if_pos hin]

/-- Witness for C6: each clause of the contract at a concrete reader state. -/
theorem bitreader_contract_witness :
    readBits ⟨[255, 0], 2⟩ 3 = .ok (bitsVal [255, 0] 2 3, ⟨[255, 0], 5⟩) ∧
    readBits ⟨[255, 0], 2⟩ 64 = .error .outOfBounds ∧
    readBytesAligned ⟨[255, 0], 2⟩ 1 = .error .formatError ∧
    readBytesAligned ⟨[255, 0], 8⟩ 5 = .error .outOfBounds ∧
    readBytesAligned ⟨[255, 0], 8⟩ 1 = .ok (slice [255, 0] 1 1, ⟨[255, 0], 16⟩) :=
  ⟨(bitreader_contract.1 ⟨[255, 0], 2⟩ 3 (by decide) (by decide) (by decide)).1,
   bitreader_contract.2.1 ⟨[255, 0], 2⟩ 64 (by decide) (by decide) (by decide),
   bitreader_contract.2.2.1 ⟨[255, 0], 2⟩ 1 (by decide),
   bitreader_contract.2.2.2.1 ⟨[255, 0], 8⟩ 5 (by decide) (by decide),
   bitreader_contract.2.2.2.2 ⟨[255, 0], 8⟩ 1 (by decide) (by decide)⟩

/-- C7.  Grid resolution is deterministic and idempotent: resolving the same
Grid Definition section twice yields identical descriptors (the resolver is a
pure function of the section body, with no hidden state). -/
theorem resolve_deterministic (sec : List Nat) (d1 d2 : GridDescriptor)
    (h1 : resolve sec = .ok d1) (h2 : resolve sec = .ok d2) : d1 = d2 := by
  rw [h1] at h2
  injection h2

/-- Witness for C7 at the example Grid Definition body. -/
theorem resolve_deterministic_witness :
    resolve exampleGridBody = .ok (interpretGrid exampleGridRaw) ∧
    interpretGrid exampleGridRaw = interpretGrid exampleGridRaw :=
  ⟨rfl, resolve_deterministic exampleGridBody _ _ rfl rfl⟩

/-- C9 counterexample.  Not every compile-time flag of `config.h` gates a
compression codec, the interpolation library, spectral support or projection
support: `CC` (and likewise `CPPFLAGS`, `USE_REGEX`, …) is a flag of the
configuration gating none of the four subsystem kinds. -/
theorem config_flags_counterexample :
    ("CC" ∈ configFlags ∧ subsystemOf "CC" = none) ∧
    ¬ (∀ f ∈ configFlags, (subsystemOf f).isSome) := by decide

/-- C9 amended.  The codec, interpolation, spectral and projection flags of
the configuration each gate their distinct algorithmic subsystem, but the
configuration also carries flags that control other concerns. -/
theorem config_flags_amended :
    ("USE_OPENJPEG" ∈ configFlags ∧ subsystemOf "USE_OPENJPEG" = some .codecJpeg2000) ∧
    ("USE_PNG" ∈ configFlags ∧ subsystemOf "USE_PNG" = some .codecPng) ∧
    ("USE_AEC" ∈ configFlags ∧ subsystemOf "USE_AEC" = some .codecAec) ∧
    ("USE_IPOLATES" ∈ configFlags ∧ subsystemOf "USE_IPOLATES" = some .interpolation) ∧
    ("IPOLATES_LIB" ∈ configFlags ∧ subsystemOf "IPOLATES_LIB" = some .interpolation) ∧
    ("USE_SPECTRAL" ∈ configFlags ∧ subsystemOf "USE_SPECTRAL" = some .spectral) ∧
    ("USE_PROJ4" ∈ configFlags ∧ subsystemOf "USE_PROJ4" = some .projection) ∧
    (∃ f ∈ configFlags, subsystemOf f = none) := by decide

/-- C10.  In this build the JPEG2000 codec (openjpeg-2.5.0), the CCSDS/AEC
codec (libaec-1.0.6), the PNG codec, the spectral subsystem and the
interpolation library (ip2lib_d, USE_IPOLATES 3) are all compiled in, so a
decode whose Data Representation template selects one of these codecs never
fails with `unsupportedCodec`, and a resample requesting the spectral method
never fails for absence of the spectral subsystem. -/
theorem build_capabilities :
    flagValue "USE_OPENJPEG" = some "openjpeg-2.5.0.tar.gz" ∧
    flagValue "USE_AEC" = some "libaec-1.0.6.tar.gz" ∧
    flagDefined "USE_PNG" = true ∧
    flagValue "USE_SPECTRAL" = some "1" ∧
    flagValue "IPOLATES_LIB" = some "ip2lib_d" ∧
    flagValue "USE_IPOLATES" = some "3" ∧
    codecAvailable 40 = true ∧ codecAvailable 41 = true ∧ codecAvailable 42 = true ∧
    spectralAvailable = true ∧
    (∀ (data : List Nat) (p : CodecParameters) (count : Nat),
      p.templateNum = 40 ∨ p.templateNum = 41 ∨ p.templateNum = 42 →
      decode data p count ≠ .error .unsupportedCodec) ∧
    (∀ (field : List ℚ) (src : GridDescriptor) (req : InterpolationRequest),
      req.method = .spectral → resample field src req ≠ .error .unsupportedMethod) := by
  refine ⟨rfl, rfl, rfl, rfl, rfl, rfl, rfl, rfl, rfl, rfl, ?_, ?_⟩
  · intro data p count hp hcontra
    have hav : codecAvailable p.templateNum = true := by
      rcases hp with h | h | h <;> rw [h] <;> decide
    have hrc : rawCodec data p.templateNum p.bitWidth count = .ok (data.take count) := by
      rcases hp with h | h | h <;> rw [rawCodec, h] <;> norm_num <;> rfl
    rw [decode, decodePackedRaw, hav] at hcontra
    rw [if_neg (by simp)] at hcontra
    rw [hrc] at hcontra
    simp only [checkCount] at hcontra
    by_cases hl : (data.take count).length = count
    · rw [if_pos hl] at hcontra; simp [Except.map] at hcontra
    · rw [if_neg hl] at hcontra; simp [Except.map] at hcontra
  · intro field src req hm hcontra
    rw [resample] at hcontra
    rw [if_neg (fun hc => hc.2 (by decide))] at hcontra
    rw [if_neg (fun hc => by rw [hm] at hc; cases hc.1)] at hcontra
    simp at hcontra

/-- C8.  Every successfully parsed message satisfies the data-model
invariant: the decoded field's length equals the resolved grid's point count,
and the validity bitmap, when present, has the field's length.  (The model's
`Message` is immutable, so the invariant established at construction holds
for the message's whole lifetime.) -/
theorem message_invariant (buf : List Nat) (m : Message) (n : Nat)
    (h : parse buf = .ok (m, n)) :
    m.field.length = pointCount m.grid ∧
      ∀ bm, m.bitmap = some bm → bm.length = m.field.length := by
  rw [parse] at h
  cases hr : parseRaw buf with
  | error e => rw [hr] at h; simp [Except.map] at h
  | ok rn =>
    obtain ⟨raw, n2⟩ := rn
    rw [hr] at h
    simp only [Except.map] at h
    injection h with h
    injection h with h1 h2
    subst h1
    obtain ⟨hhd, secs, hloop, hasm⟩ := parseRaw_ok_parts hr
    obtain ⟨hlen, hbm⟩ := assemble_invariants hasm
    constructor
    · show (raw.packed.map (reconstruct (interpretParams raw.params))).length = _
      rw [List.length_map, hlen]
      rfl
    · intro bm hbm'
      have h2 : raw.bitmap = some bm := hbm'
      have h3 := hbm bm h2
      show bm.length = (raw.packed.map (reconstruct (interpretParams raw.params))).length
      rw [List.length_map, hlen, h3]

/-- Witness for C8 at the concrete example buffer (bitmap present). -/
theorem message_invariant_witness :
    parse exampleBuf = .ok (interpret exampleRawMsg, 85) ∧
    (interpret exampleRawMsg).field.length = pointCount (interpret exampleRawMsg).grid ∧
    ∀ bm, (interpret exampleRawMsg).bitmap = some bm →
      bm.length = (interpret exampleRawMsg).field.length := by
  have hp : parse exampleBuf = .ok (interpret exampleRawMsg, 85) := by
    rw [parse, show parseRaw exampleBuf = .ok (exampleRawMsg, 85) from rfl]
    rfl
  exact ⟨hp, (message_invariant exampleBuf _ 85 hp).1, (message_invariant exampleBuf _ 85 hp).2⟩

/-! ## Extension lemmas: the parser only reads the bytes it consumes -/

theorem length_take_append {buf : List Nat} {n : Nat} (extra : List Nat)
    (hn : n ≤ buf.length) : (buf.take n ++ extra).length = n + extra.length := by
  simp [List.length_take]
  omega

theorem byteAt_ext {buf : List Nat} {n : Nat} (extra : List Nat) (hn : n ≤ buf.length)
    {i : Nat} (hi : i < n) : byteAt (buf.take n ++ extra) i = byteAt buf i := by
  rw [byteAt, byteAt, List.getD_eq_getElem?_getD, List.getD_eq_getElem?_getD]
  rw [List.getElem?_append, if_pos (by simp [List.length_take]; omega)]
  rw [List.getElem?_take, if_pos hi]

theorem be32_ext {buf : List Nat} {n : Nat} (extra : List Nat) (hn : n ≤ buf.length)
    {i : Nat} (hi : i + 4 ≤ n) : be32 (buf.take n ++ extra) i = be32 buf i := by
  rw [be32, be32, byteAt_ext extra hn (by omega), byteAt_ext extra hn (by omega),
    byteAt_ext extra hn (by omega), byteAt_ext extra hn (by omega)]

theorem slice_ext {buf : List Nat} {n : Nat} (extra : List Nat) (hn : n ≤ buf.length)
    {start len : Nat} (hs : start + len ≤ n) :
    slice (buf.take n ++ extra) start len = slice buf start len := by
  rw [slice, slice]
  apply List.map_congr_left
  intro k hk
  rw [List.mem_range] at hk
  exact byteAt_ext extra hn (by omega)

/-- The section loop's consumed count is sound (`pos + 4 ≤ n ≤ buf.length`)
and the loop's result is unchanged when the buffer past the consumed count is
replaced by arbitrary trailing bytes, for any sufficient fuel. -/
theorem sectionLoop_main {buf : List Nat} :
    ∀ fuel pos secs n, sectionLoop buf fuel pos = .ok (secs, n) →
      pos + 4 ≤ n ∧ n ≤ buf.length ∧
        ∀ extra fuel', n ≤ pos + fuel' →
          sectionLoop (buf.take n ++ extra) fuel' pos = .ok (secs, n) := by
  intro fuel
  induction fuel with
  | zero => intro pos secs n h; simp [sectionLoop] at h
  | succ f ih =>
    intro pos secs n h
    simp only [sectionLoop] at h
    split at h
    · rename_i hmk
      injection h with h
      injection h with hsecs hn
      subst hsecs
      subst hn
      refine ⟨by omega, hmk.1, ?_⟩
      intro extra fuel' hfuel
      cases fuel' with
      | zero => omega
      | succ f2 =>
        have hn' : pos + 4 ≤ buf.length := hmk.1
        simp only [sectionLoop]
        rw [if_pos ⟨by rw [length_take_append extra hn']; omega,
          by rw [slice_ext extra hn' (by omega)]; exact hmk.2⟩]
    · rename_i hnomk
      split at h
      · rename_i h5
        split at h
        · rename_i hlen
          cases hrec : sectionLoop buf f (pos + be32 buf pos) with
          | error e => rw [hrec] at h; simp at h
          | ok sn =>
            obtain ⟨secs', n'⟩ := sn
            rw [hrec] at h
            simp only at h
            injection h with h
            injection h with hsecs hn
            subst hsecs
            subst hn
            obtain ⟨hpos', hn', hext⟩ := ih (pos + be32 buf pos) secs' n' hrec
            have hble : 5 ≤ be32 buf pos := hlen.1
            refine ⟨by omega, hn', ?_⟩
            intro extra fuel' hfuel
            cases fuel' with
            | zero => omega
            | succ f2 =>
              have hb32 : be32 (buf.take n' ++ extra) pos = be32 buf pos :=
                be32_ext extra hn' (by omega)
              have hbody : slice (buf.take n' ++ extra) (pos + 5) (be32 buf pos - 5) =
                  slice buf (pos + 5) (be32 buf pos - 5) :=
                slice_ext extra hn' (by omega)
              have hnum : byteAt (buf.take n' ++ extra) (pos + 4) = byteAt buf (pos + 4) :=
                byteAt_ext extra hn' (by omega)
              have hmk' : ¬ (pos + 4 ≤ (buf.take n' ++ extra).length ∧
                  slice (buf.take n' ++ extra) pos 4 = endMarker) := by
                rintro ⟨-, hsl⟩
                rw [slice_ext extra hn' (by omega)] at hsl
                exact hnomk ⟨by omega, hsl⟩
              simp only [sectionLoop]
              rw [if_neg hmk']
              rw [if_pos (show pos + 5 ≤ (buf.take n' ++ extra).length by
                rw [length_take_append extra hn']; omega)]
              rw [hb32]
              rw [if_pos ⟨hble, by rw [length_take_append extra hn']; omega⟩]
              rw [hext extra f2 (by omega)]
              rw [hnum, hbody]
        · simp at h
      · simp at h

/-- Every failure of the section loop reports a consumed byte count (the
offset reached through the section-length fields already read). -/
theorem sectionLoop_err {buf : List Nat} :
    ∀ fuel pos e, sectionLoop buf fuel pos = .error e → ∃ c, e.consumed = some c := by
  intro fuel
  induction fuel with
  | zero =>
    intro pos e h
    simp only [sectionLoop] at h
    injection h with h
    rw [← h]
    exact ⟨pos, rfl⟩
  | succ f ih =>
    intro pos e h
    simp only [sectionLoop] at h
    split at h
    · simp at h
    · split at h
      · split at h
        · cases hrec : sectionLoop buf f (pos + be32 buf pos) with
          | error e' =>
            rw [hrec] at h
            simp only at h
            injection h with h
            rw [← h]
            exact ih (pos + be32 buf pos) e' hrec
          | ok sn => obtain ⟨s, n⟩ := sn; rw [hrec] at h; simp at h
        · injection h with h
          rw [← h]
          exact ⟨pos, rfl⟩
      · injection h with h
        rw [← h]
        exact ⟨pos, rfl⟩

/-- The parser's success is determined by the consumed prefix: replacing the
bytes past the consumed count with arbitrary trailing bytes leaves the
result (and the consumed count) unchanged. -/
theorem parseRaw_ext {buf : List Nat} {raw : RawMessage} {n : Nat}
    (h : parseRaw buf = .ok (raw, n)) (extra : List Nat) :
    n ≤ buf.length ∧ parseRaw (buf.take n ++ extra) = .ok (raw, n) := by
  obtain ⟨hhd, secs, hloop, hasm⟩ := parseRaw_ok_parts h
  obtain ⟨hpos, hn, hext⟩ := sectionLoop_main buf.length 5 secs n hloop
  refine ⟨hn, ?_⟩
  rw [parseRaw]
  rw [if_pos (show headerOk (buf.take n ++ extra) from
    ⟨by rw [length_take_append extra hn]; omega,
     by rw [slice_ext extra hn (by omega)]; exact hhd.2.1,
     by rw [byteAt_ext extra hn (by omega)]; exact hhd.2.2⟩)]
  rw [hext extra (buf.take n ++ extra).length (by rw [length_take_append extra hn]; omega)]
  simp only
  rw [hasm]

/-- C5.  The Section Parser stops at the End-of-message marker: a buffer with
arbitrary trailing bytes after the consumed prefix parses to the same message
with the same consumed byte count (so concatenated messages are accepted),
and on any failure past the indicator header the parser reports the consumed
byte count determined by the section-length fields already read. -/
theorem parser_trailing_and_consumed :
    (∀ (buf : List Nat) (m : Message) (n : Nat) (extra : List Nat),
      parse buf = .ok (m, n) →
      n ≤ buf.length ∧ parse (buf.take n ++ extra) = .ok (m, n)) ∧
    (∀ (buf : List Nat) (f : ParseFailure),
      parse buf = .error f → headerOk buf → ∃ c, f.consumed = some c) := by
  constructor
  · intro buf m n extra h
    rw [parse] at h
    cases hr : parseRaw buf with
    | error e => rw [hr] at h; simp [Except.map] at h
    | ok rn =>
      obtain ⟨raw, n2⟩ := rn
      rw [hr] at h
      simp only [Except.map] at h
      injection h with h
      injection h with h1 h2
      subst h2
      obtain ⟨hn, hext⟩ := parseRaw_ext hr extra
      refine ⟨hn, ?_⟩
      rw [parse, hext]
      simp only [Except.map]
      rw [h1]
  · intro buf f h hhd
    rw [parse] at h
    cases hr : parseRaw buf with
    | ok rn => rw [hr] at h; simp [Except.map] at h
    | error e =>
      rw [hr] at h
      simp only [Except.map] at h
      injection h with h
      subst h
      rw [parseRaw, if_pos hhd] at hr
      cases hloop : sectionLoop buf buf.length 5 with
      | error e2 =>
        rw [hloop] at hr
        simp only at hr
        injection hr with hr
        subst hr
        exact sectionLoop_err buf.length 5 e2 hloop
      | ok sn =>
        obtain ⟨secs, n⟩ := sn
        rw [hloop] at hr
        simp only at hr
        cases hasm : assemble secs with
        | error k =>
          rw [hasm] at hr
          simp only at hr
          injection hr with hr
          rw [← hr]
          exact ⟨n, rfl⟩
        | ok raw =>
          rw [hasm] at hr
          simp at hr

/-- Witness for C5: the example buffer with trailing bytes, and the
example malformed buffer (well-formed indicator, impossible section length)
reporting its consumed count. -/
theorem parser_trailing_and_consumed_witness :
    parse exampleBuf = .ok (interpret exampleRawMsg, 85) ∧
    (85 ≤ exampleBuf.length ∧
      parse (exampleBuf.take 85 ++ [9, 9, 9]) = .ok (interpret exampleRawMsg, 85)) ∧
    parse exampleBadBuf = .error ⟨.formatError, some 5⟩ ∧
    headerOk exampleBadBuf ∧
    ∃ c, (⟨Err.formatError, some 5⟩ : ParseFailure).consumed = some c := by
  have hp : parse exampleBuf = .ok (interpret exampleRawMsg, 85) := by
    rw [parse, show parseRaw exampleBuf = .ok (exampleRawMsg, 85) from rfl]
    rfl
  have hb : parse exampleBadBuf = .error ⟨.formatError, some 5⟩ := by
    rw [parse, show parseRaw exampleBadBuf = .error ⟨.formatError, some 5⟩ from rfl]
    rfl
  exact ⟨hp, parser_trailing_and_consumed.1 exampleBuf _ 85 [9, 9, 9] hp, hb, by decide,
    parser_trailing_and_consumed.2 exampleBadBuf _ hb (by decide)⟩

/-! ## Round-trip of simple packing -/

theorem foldl_min_le_init (xs : List ℚ) (a : ℚ) : xs.foldl min a ≤ a := by
  induction xs generalizing a with
  | nil => exact le_refl a
  | cons y ys ih =>
    calc (y :: ys).foldl min a = ys.foldl min (min a y) := rfl
    _ ≤ min a y := ih (min a y)
    _ ≤ a := min_le_left a y

theorem foldl_min_le_mem : ∀ (xs : List ℚ) (a x : ℚ), x ∈ xs → xs.foldl min a ≤ x := by
  intro xs
  induction xs with
  | nil => intro a x hx; simp at hx
  | cons y ys ih =>
    intro a x hx
    rcases List.mem_cons.mp hx with h | h
    · subst h
      calc (x :: ys).foldl min a = ys.foldl min (min a x) := rfl
      _ ≤ min a x := foldl_min_le_init ys (min a x)
      _ ≤ x := min_le_right a x
    · exact ih (min a y) x h

theorem refValue_le {field : List ℚ} {v : ℚ} (D : ℤ) (hv : v ∈ field) :
    refValue field D ≤ v * (10 : ℚ) ^ D := by
  cases field with
  | nil => simp at hv
  | cons f0 fs =>
    show ((f0 :: fs).map (fun v => v * (10 : ℚ) ^ D)).tail.foldl min
        (((f0 :: fs).map (fun v => v * (10 : ℚ) ^ D)).headD 0) ≤ _
    rcases List.mem_cons.mp hv with h | h
    · subst h
      exact foldl_min_le_init _ _
    · exact foldl_min_le_mem _ _ _ (List.mem_map_of_mem _ h)

theorem le_foldl_maxw (xs : List Nat) (a : Nat) :
    a ≤ xs.foldl (fun b v => max b (bitLen v)) a := by
  induction xs generalizing a with
  | nil => exact Nat.le_refl a
  | cons y ys ih =>
    calc a ≤ max a (bitLen y) := Nat.le_max_left _ _
    _ ≤ ys.foldl (fun b v => max b (bitLen v)) (max a (bitLen y)) := ih _

theorem foldl_maxw_mem : ∀ (xs : List Nat) (a x : Nat), x ∈ xs →
    bitLen x ≤ xs.foldl (fun b v => max b (bitLen v)) a := by
  intro xs
  induction xs with
  | nil => intro a x hx; simp at hx
  | cons y ys ih =>
    intro a x hx
    rcases List.mem_cons.mp hx with h | h
    · subst h
      calc bitLen x ≤ max a (bitLen x) := Nat.le_max_right _ _
      _ ≤ ys.foldl (fun b v => max b (bitLen v)) (max a (bitLen x)) := le_foldl_maxw _ _
    · exact ih (max a (bitLen y)) x h

theorem widthOf_pos (field : List ℚ) (E D : ℤ) : 1 ≤ widthOf field E D :=
  le_foldl_maxw _ _

theorem packed_lt_width {field : List ℚ} {E D : ℤ} {x : Nat}
    (hx : x ∈ packedOf field E D) : x < 2 ^ widthOf field E D := by
  have h1 : x < 2 ^ bitLen x := lt_two_pow_bitLen x
  have h2 : bitLen x ≤ widthOf field E D := foldl_maxw_mem _ _ _ hx
  exact Nat.lt_of_lt_of_le h1 (Nat.pow_le_pow_right (by omega) h2)

theorem packedOf_length (field : List ℚ) (E D : ℤ) :
    (packedOf field E D).length = field.length := by
  simp [packedOf, scaledVals]

theorem packBitAt_le_one (vals : List Nat) (w i : Nat) : packBitAt vals w i ≤ 1 := by
  have := Nat.mod_lt (vals.getD (i / w) 0 >>> (w - 1 - i % w)) (show 0 < 2 by omega)
  simpa [packBitAt] using Nat.lt_succ_iff.mp this

theorem encodeBytes_length (vals : List Nat) (w : Nat) :
    (encodeBytes vals w).length = (vals.length * w + 7) / 8 := by
  simp [encodeBytes]

theorem bitAt_encodeBytes (vals : List Nat) (w i : Nat) (hi : i < vals.length * w) :
    bitAt (encodeBytes vals w) i = packBitAt vals w i := by
  have hnb : vals.length * w ≤ 8 * ((vals.length * w + 7) / 8) := by
    have := Nat.div_add_mod (vals.length * w + 7) 8
    have := Nat.mod_lt (vals.length * w + 7) (show 0 < 8 by omega)
    omega
  have hj : i / 8 < (vals.length * w + 7) / 8 := by
    omega
  rw [bitAt, byteAt, encodeBytes, List.getD_eq_getElem?_getD, List.getElem?_map,
    List.getElem?_range hj]
  show (assembleBits (packBitAt vals w) (8 * (i / 8)) 8 >>> (7 - i % 8)) % 2 = _
  have h78 : 7 - i % 8 = 8 - 1 - i % 8 := by omega
  rw [h78, assembleBits_shift _ _ (packBitAt_le_one vals w) 8 (i % 8)
    (Nat.mod_lt i (by omega))]
  congr 1
  have := Nat.div_add_mod i 8
  omega

theorem bitsVal_encodeBytes (vals : List Nat) (w j : Nat) (hj : j < vals.length)
    (hv : vals.getD j 0 < 2 ^ w) :
    bitsVal (encodeBytes vals w) (j * w) w = vals.getD j 0 := by
  apply assembleBits_eq_of_bits _ w (j * w) _ hv
  intro i hi
  have hjw : (j + 1) * w ≤ vals.length * w := Nat.mul_le_mul_right w (by omega)
  have hin : j * w + i < vals.length * w := by
    have : (j + 1) * w = j * w + w := by ring
    omega
  rw [bitAt_encodeBytes vals w _ hin, packBitAt]
  have hdiv : (j * w + i) / w = j := by
    rw [Nat.mul_comm j w, Nat.mul_add_div (by omega)]
    rw [Nat.div_eq_of_lt hi]
    omega
  have hmod : (j * w + i) % w = i := by
    rw [Nat.mul_comm j w, Nat.mul_add_mod]
    exact Nat.mod_eq_of_lt hi
  rw [hdiv, hmod]

theorem packedOfW_length (field : List ℚ) (E D : ℤ) (w : Nat) :
    (packedOfW field E D w).length = field.length := by
  rw [packedOfW, List.length_map, packedOf_length]

theorem packedOfW_lt {field : List ℚ} {E D : ℤ} {w : Nat} {x : Nat}
    (hx : x ∈ packedOfW field E D w) : x < 2 ^ w := by
  rw [packedOfW, List.mem_map] at hx
  obtain ⟨p, -, rfl⟩ := hx
  have h1 : (0 : Nat) < 2 ^ w := Nat.pos_pow_of_pos w (by omega)
  have h2 : clampPacked w p ≤ 2 ^ w - 1 := min_le_right _ _
  omega

theorem packedOfW_eq {field : List ℚ} {E D : ℤ} {w : Nat}
    (hw : widthOf field E D ≤ w) : packedOfW field E D w = packedOf field E D := by
  rw [packedOfW]
  conv_rhs => rw [← List.map_id (packedOf field E D)]
  apply List.map_congr_left
  intro x hx
  have h1 : x < 2 ^ widthOf field E D := packed_lt_width hx
  have h2 : (2 : Nat) ^ widthOf field E D ≤ 2 ^ w := Nat.pow_le_pow_right (by omega) hw
  show min x (2 ^ w - 1) = x
  rw [min_eq_left (by omega)]

theorem simplePacked_encodeW (field : List ℚ) (E D : ℤ) (w : Nat) (hw1 : 1 ≤ w) :
    simplePacked (encodeDataW field E D w) w field.length =
      .ok (packedOfW field E D w) := by
  rw [simplePacked]
  rw [if_neg (by omega)]
  have hlen : (encodeDataW field E D w).length =
      ((packedOfW field E D w).length * w + 7) / 8 := by
    rw [encodeDataW, encodeBytes_length]
  rw [if_pos (by
    rw [hlen, packedOfW_length]
    have := Nat.div_add_mod (field.length * w + 7) 8
    have := Nat.mod_lt (field.length * w + 7) (show 0 < 8 by omega)
    omega)]
  congr 1
  apply List.ext_getElem
  · rw [length_map_range, packedOfW_length]
  · intro k hk1 hk2
    have hkf : k < field.length := by rw [length_map_range] at hk1; exact hk1
    have hkp : k < (packedOfW field E D w).length := by rw [packedOfW_length]; exact hkf
    rw [List.getElem_map, List.getElem_range]
    rw [encodeDataW, bitsVal_encodeBytes _ _ k (by rw [packedOfW_length]; exact hkf)
      (packedOfW_lt (List.getD_eq_getElem (packedOfW field E D w) 0 hkp ▸
        List.getElem_mem _))]
    rw [List.getD_eq_getElem (packedOfW field E D w) 0 hkp]

theorem quantize_bound (v R : ℚ) (E D : ℤ) (hR : R ≤ v * (10 : ℚ) ^ D) :
    |v - (((⌊(v * (10 : ℚ) ^ D - R) / (2 : ℚ) ^ E⌋.toNat : ℚ)) * (2 : ℚ) ^ E + R) *
        (10 : ℚ) ^ (-D)| ≤ (2 : ℚ) ^ E * (10 : ℚ) ^ (-D) := by
  have h2 : (0 : ℚ) < (2 : ℚ) ^ E := zpow_pos (by norm_num) E
  have h10 : (0 : ℚ) < (10 : ℚ) ^ D := zpow_pos (by norm_num) D
  have h10n : (0 : ℚ) < (10 : ℚ) ^ (-D) := zpow_pos (by norm_num) (-D)
  set x := v * (10 : ℚ) ^ D with hx
  set y := (x - R) / (2 : ℚ) ^ E with hy
  have hynn : (0 : ℚ) ≤ y := div_nonneg (by linarith) (le_of_lt h2)
  have hfl : (0 : ℤ) ≤ ⌊y⌋ := Int.floor_nonneg.mpr hynn
  have hcast : ((⌊y⌋.toNat : ℚ)) = ((⌊y⌋ : ℤ) : ℚ) := by
    exact_mod_cast congrArg (fun z : ℤ => (z : ℚ)) (Int.toNat_of_nonneg hfl)
  rw [hcast]
  have hxR : x - R = y * (2 : ℚ) ^ E := by
    rw [hy, div_mul_cancel₀ _ (ne_of_gt h2)]
  have hvx : v = x * (10 : ℚ) ^ (-D) := by
    rw [hx, zpow_neg, mul_assoc, mul_inv_cancel₀ (ne_of_gt h10), mul_one]
  have hfr0 : (0 : ℚ) ≤ y - ⌊y⌋ := by
    have := Int.floor_le y
    linarith
  have hfr1 : y - ⌊y⌋ ≤ 1 := by
    have := Int.lt_floor_add_one y
    linarith
  have hkey : v - (((⌊y⌋ : ℤ) : ℚ) * (2 : ℚ) ^ E + R) * (10 : ℚ) ^ (-D) =
      (y - ⌊y⌋) * ((2 : ℚ) ^ E * (10 : ℚ) ^ (-D)) := by
    rw [hvx]
    have : x = y * (2 : ℚ) ^ E + R := by linarith [hxR]
    rw [this]
    ring
  rw [hkey, abs_of_nonneg (by positivity)]
  have hED : (0 : ℚ) < (2 : ℚ) ^ E * (10 : ℚ) ^ (-D) := by positivity
  nlinarith [hED, hfr0, hfr1]

theorem getD_map_reconstruct (p : CodecParameters) (l : List Nat) (i : Nat)
    (hi : i < l.length) :
    (l.map (reconstruct p)).getD i 0 = reconstruct p (l.getD i 0) := by
  rw [List.getD_eq_getElem?_getD, List.getElem?_map, List.getElem?_eq_getElem hi]
  simp only [Option.map_some', Option.getD_some]
  rw [List.getD_eq_getElem l 0 hi]

/-- C2 counterexample.  The round trip does not hold for every choice of bit
width: at field [0, 100], binary and decimal scale factors 0, and bit width
1, encoding succeeds but the value 100 cannot be stored in one bit (its
packed code saturates at 1), the decoded value is 1, and |100 − 1| = 99
exceeds the quantization bound 2^0 × 10^0 = 1. -/
theorem simple_packing_width_counterexample :
    ∃ out, decode (encodeDataW [0, 100] 0 0 1) (encodeParamsW [0, 100] 0 0 1) 2 = .ok out ∧
      ¬ (∀ i, i < 2 → |([0, 100] : List ℚ).getD i 0 - out.getD i 0| ≤
          (2 : ℚ) ^ (0 : ℤ) * (10 : ℚ) ^ (-(0 : ℤ))) := by
  have href : refValue [0, 100] (0 : ℤ) = 0 := by
    simp only [refValue, scaledVals, List.map_cons, List.map_nil, List.foldl_cons,
      List.foldl_nil]
    rw [min_eq_left (by norm_num)]
    norm_num
  have hpk : packedOf [0, 100] (0 : ℤ) (0 : ℤ) = [0, 100] := by
    rw [packedOf, href]
    simp only [scaledVals, List.map_cons, List.map_nil]
    norm_num
    decide
  have hdata : encodeDataW [0, 100] 0 0 1 = [64] := by
    rw [encodeDataW, packedOfW, hpk]
    decide
  have hdp : decodePackedRaw [64] 0 1 2 = .ok [0, 1] := rfl
  refine ⟨[0, 1].map (reconstruct (encodeParamsW [0, 100] 0 0 1)), ?_, ?_⟩
  · rw [decode, show (encodeParamsW [0, 100] 0 0 1).templateNum = 0 from rfl,
      show (encodeParamsW [0, 100] 0 0 1).bitWidth = 1 from rfl, hdata, hdp]
    rfl
  · intro hall
    have h1 := hall 1 (by omega)
    rw [show (([0, 1] : List Nat).map (reconstruct (encodeParamsW [0, 100] 0 0 1))).getD 1 0 =
        reconstruct (encodeParamsW [0, 100] 0 0 1) 1 from rfl] at h1
    rw [show (([0, 100] : List ℚ)).getD 1 0 = 100 from rfl] at h1
    rw [reconstruct, show (encodeParamsW [0, 100] 0 0 1).binaryScale = (0 : ℤ) from rfl,
      show (encodeParamsW [0, 100] 0 0 1).decimalScale = (0 : ℤ) from rfl,
      show (encodeParamsW [0, 100] 0 0 1).reference = refValue [0, 100] (0 : ℤ) from rfl,
      href] at h1
    norm_num at h1

/-- C2 amended.  For every field, binary and decimal scale factors, and
every bit width at least the encoder-computed sufficient width (`widthOf`,
wide enough for the largest quantized value), encoding with simple packing
at that width and then decoding through the Codec Registry reproduces every
original value within the quantization error bound
2^binaryScale × 10^(−decimalScale), the decoder reconstructing each value as
(packed × 2^binaryScale + reference) × 10^(−decimalScale). -/
theorem simple_packing_round_trip (field : List ℚ) (E D : ℤ) (w : Nat)
    (hw : widthOf field E D ≤ w) :
    ∃ out, decode (encodeDataW field E D w) (encodeParamsW field E D w) field.length =
        .ok out ∧
      out.length = field.length ∧
      ∀ i, i < field.length →
        |field.getD i 0 - out.getD i 0| ≤ (2 : ℚ) ^ E * (10 : ℚ) ^ (-D) := by
  have hw1 : 1 ≤ w := le_trans (widthOf_pos field E D) hw
  have heq : packedOfW field E D w = packedOf field E D := packedOfW_eq hw
  refine ⟨(packedOf field E D).map (reconstruct (encodeParamsW field E D w)), ?_, ?_, ?_⟩
  · have hdp : decodePackedRaw (encodeDataW field E D w) 0 w field.length =
        .ok (packedOf field E D) := by
      rw [decodePackedRaw, if_neg (by decide)]
      rw [rawCodec, if_pos rfl, simplePacked_encodeW field E D w hw1, heq]
      simp [checkCount, packedOf_length]
    rw [decode]
    rw [show (encodeParamsW field E D w).templateNum = 0 from rfl,
      show (encodeParamsW field E D w).bitWidth = w from rfl, hdp]
    rfl
  · rw [List.length_map, packedOf_length]
  · intro i hi
    have hip : i < (packedOf field E D).length := by rw [packedOf_length]; exact hi
    rw [getD_map_reconstruct _ _ _ hip]
    have hpk : (packedOf field E D).getD i 0 =
        (⌊(field.getD i 0 * (10 : ℚ) ^ D - refValue field D) / (2 : ℚ) ^ E⌋).toNat := by
      rw [packedOf, scaledVals, List.map_map]
      have hif : i < field.length := hi
      have hml : i < (field.map ((fun x => (⌊(x - refValue field D) / (2 : ℚ) ^ E⌋).toNat) ∘
          fun v => v * (10 : ℚ) ^ D)).length := by
        rw [List.length_map]; exact hif
      rw [List.getD_eq_getElem _ 0 hml, List.getElem_map]
      simp only [Function.comp_apply]
      rw [List.getD_eq_getElem field 0 hif]
    rw [hpk, reconstruct]
    show |field.getD i 0 - _| ≤ _
    exact quantize_bound (field.getD i 0) (refValue field D) E D
      (refValue_le D (List.getD_eq_getElem field 0 hi ▸ List.getElem_mem hi))

/-- Witness for C2: the round trip at a concrete field, scale factors, and a
concrete caller-chosen sufficient bit width (the field quantizes to packed
codes 0, 20, 10, so the computed width is 5 and width 8 suffices). -/
theorem simple_packing_round_trip_witness :
    widthOf [3/2, 2, 7/4] (-2) 1 ≤ 8 ∧
    ∃ out, decode (encodeDataW [3/2, 2, 7/4] (-2) 1 8) (encodeParamsW [3/2, 2, 7/4] (-2) 1 8)
        3 = .ok out ∧ out.length = 3 ∧
      ∀ i, i < 3 → |([3/2, 2, 7/4] : List ℚ).getD i 0 - out.getD i 0| ≤
        (2 : ℚ) ^ (-2 : ℤ) * (10 : ℚ) ^ (-(1 : ℤ)) := by
  have href : refValue [3/2, 2, 7/4] (1 : ℤ) = 15 := by
    simp only [refValue, scaledVals, List.map_cons, List.map_nil, List.foldl_cons,
      List.foldl_nil]
    rw [min_eq_left (by norm_num), min_eq_left (by norm_num)]
    norm_num
  have hpk : packedOf [3/2, 2, 7/4] (-2 : ℤ) (1 : ℤ) = [0, 20, 10] := by
    rw [packedOf, href]
    simp only [scaledVals, List.map_cons, List.map_nil]
    norm_num
    decide
  have hw : widthOf [3/2, 2, 7/4] (-2) 1 ≤ 8 := by
    rw [widthOf, hpk]
    decide
  exact ⟨hw, simple_packing_round_trip [3/2, 2, 7/4] (-2) 1 8 hw⟩

/-! ## Interpolation identities and the domain policy -/

theorem axis_cases (i n : Nat) (hi : i < n) :
    (min (⌊(i : ℚ)⌋.toNat) (n - 2) = i ∧
      (i : ℚ) - ((min (⌊(i : ℚ)⌋.toNat) (n - 2) : Nat) : ℚ) = 0) ∨
    (min (⌊(i : ℚ)⌋.toNat) (n - 2) = i - 1 ∧ 1 ≤ i ∧
      (i : ℚ) - ((min (⌊(i : ℚ)⌋.toNat) (n - 2) : Nat) : ℚ) = 1) := by
  have hfl : (⌊(i : ℚ)⌋).toNat = i := by
    rw [Int.floor_natCast]
    exact Int.toNat_natCast i
  rcases le_or_lt i (n - 2) with hle | hgt
  · left
    rw [hfl, min_eq_left hle, sub_self]
    exact ⟨rfl, rfl⟩
  · right
    have hn2 : 2 ≤ n := by omega
    have hie : i = n - 1 := by omega
    have hmin : min (⌊(i : ℚ)⌋.toNat) (n - 2) = n - 2 := by
      rw [hfl]
      exact min_eq_right (by omega)
    refine ⟨by rw [hmin]; omega, by omega, ?_⟩
    rw [hmin, hie]
    have c1 : ((n - 1 : ℕ) : ℚ) = (n : ℚ) - 1 := by
      push_cast [Nat.cast_sub (by omega : 1 ≤ n)]
      ring
    have c2 : ((n - 2 : ℕ) : ℚ) = (n : ℚ) - 2 := by
      push_cast [Nat.cast_sub hn2]
      ring
    rw [c1, c2]
    ring

theorem bilinearAt_exact (field : List ℚ) (g : GridDescriptor) (i j : Nat)
    (hi : i < g.ni) (hj : j < g.nj) :
    bilinearAt field g (i : ℚ) (j : ℚ) = field.getD (j * g.ni + i) 0 := by
  simp only [bilinearAt]
  rcases axis_cases i g.ni hi with ⟨hmi, hfu⟩ | ⟨hmi, hi1, hfu⟩ <;>
    rcases axis_cases j g.nj hj with ⟨hmj, hfv⟩ | ⟨hmj, hj1, hfv⟩
  · rw [hfu, hfv, hmi, hmj]
    ring_nf
  · rw [hfu, hfv, hmi, hmj, show j - 1 + 1 = j by omega]
    ring_nf
  · rw [hfu, hfv, hmi, hmj]
    ring_nf
    congr 1
    omega
  · rw [hfu, hfv, hmi, hmj, show j - 1 + 1 = j by omega]
    ring_nf
    congr 1
    omega

theorem nearestAt_exact (field : List ℚ) (g : GridDescriptor) (i j : Nat)
    (hi : i < g.ni) (hj : j < g.nj) :
    nearestAt field g (i : ℚ) (j : ℚ) = field.getD (j * g.ni + i) 0 := by
  have hfl : ∀ (k : Nat), (⌊(k : ℚ) + 1/2⌋).toNat = k := by
    intro k
    rw [show ((k : ℚ) + 1/2) = ((k : ℤ) : ℚ) + 1/2 by norm_num, Int.floor_int_add,
      show ⌊(1/2 : ℚ)⌋ = 0 by norm_num]
    simp
  rw [nearestAt, hfl i, hfl j, min_eq_left (by omega), min_eq_left (by omega)]

theorem interpOne_exact (field : List ℚ) (g : GridDescriptor) (m : Method) (mv : ℚ)
    (i j : Nat) (hi : i < g.ni) (hj : j < g.nj) (h1 : g.dlon ≠ 0) (h2 : g.dlat ≠ 0) :
    interpOne field g m mv (latAt g j) (lonAt g i) = (field.getD (j * g.ni + i) 0, false) := by
  have hu : (lonAt g i - g.lon0) / g.dlon = (i : ℚ) := by
    rw [lonAt, add_sub_cancel_left, mul_div_assoc, div_self h1, mul_one]
  have hv : (latAt g j - g.lat0) / g.dlat = (j : ℚ) := by
    rw [latAt, add_sub_cancel_left, mul_div_assoc, div_self h2, mul_one]
  simp only [interpOne]
  rw [hu, hv]
  rw [if_pos (show inDomain g (i : ℚ) (j : ℚ) from
    ⟨Nat.cast_nonneg i,
     by
       have : (i : ℚ) + 1 ≤ (g.ni : ℚ) := by exact_mod_cast Nat.succ_le_of_lt hi
       linarith,
     Nat.cast_nonneg j,
     by
       have : (j : ℚ) + 1 ≤ (g.nj : ℚ) := by exact_mod_cast Nat.succ_le_of_lt hj
       linarith⟩)]
  cases m
  case bilinear => simp only [methodValue]; rw [bilinearAt_exact field g i j hi hj]
  case nearest => simp only [methodValue]; rw [nearestAt_exact field g i j hi hj]
  case budget => simp only [methodValue]; rw [nearestAt_exact field g i j hi hj]
  case spectral => simp only [methodValue]; rw [nearestAt_exact field g i j hi hj]

theorem resample_same_grid (field : List ℚ) (g : GridDescriptor) (m : Method) (mv : ℚ)
    (hlen : field.length = pointCount g) (hproj : g.proj = .latlon)
    (hm : m = .bilinear ∨ m = .nearest) (h1 : g.dlon ≠ 0) (h2 : g.dlat ≠ 0) :
    resample field g ⟨g, m, mv⟩ = .ok ⟨field, 0, 0⟩ := by
  have hpts : ∀ k ∈ List.range (g.ni * g.nj),
      interpOne field g m mv (latAt g (k / g.ni)) (lonAt g (k % g.ni)) =
        (field.getD k 0, false) := by
    intro k hk
    rw [List.mem_range] at hk
    have hni : 0 < g.ni := by
      rcases Nat.eq_zero_or_pos g.ni with h0 | h
      · rw [h0] at hk; simp at hk
      · exact h
    have hi : k % g.ni < g.ni := Nat.mod_lt k hni
    have hj : k / g.ni < g.nj :=
      (Nat.div_lt_iff_lt_mul hni).mpr (by rw [Nat.mul_comm g.nj g.ni]; exact hk)
    rw [interpOne_exact field g m mv _ _ hi hj h1 h2]
    have hidx : (k / g.ni) * g.ni + k % g.ni = k := by
      rw [Nat.mul_comm]
      exact Nat.div_add_mod k g.ni
    rw [hidx]
  rcases hm with rfl | rfl <;>
  · rw [resample]
    rw [if_neg (by rintro ⟨hc, -⟩; cases hc)]
    rw [if_neg (by rintro ⟨-, hc⟩; rw [hproj] at hc; cases hc)]
    simp only
    rw [List.map_congr_left hpts]
    have hval : ((List.range (g.ni * g.nj)).map (fun k => (field.getD k 0, false))).map
        (fun x : ℚ × Bool => x.1) = field := by
      rw [List.map_map]
      apply List.ext_getElem
      · rw [length_map_range]; exact hlen.symm
      · intro n hn1 hn2
        rw [List.getElem_map, List.getElem_range]
        show field.getD n 0 = field[n]
        exact List.getD_eq_getElem field 0 hn2
    have hmiss : ((List.range (g.ni * g.nj)).map (fun k => (field.getD k 0, false))).countP
        (fun x : ℚ × Bool => x.2) = 0 := by
      rw [List.countP_eq_zero]
      intro a ha
      rw [List.mem_map] at ha
      obtain ⟨k, -, rfl⟩ := ha
      simp
    rw [hval, hmiss]
    split <;> norm_num

theorem resample_ok_form {field : List ℚ} {src : GridDescriptor}
    {req : InterpolationRequest} {out : ResampleResult}
    (h : resample field src req = .ok out) :
    out = ⟨((List.range (req.target.ni * req.target.nj)).map (fun k =>
        interpOne field src req.method req.missingValue
          (latAt req.target (k / req.target.ni)) (lonAt req.target (k % req.target.ni)))).map
        (fun x : ℚ × Bool => x.1),
      ((List.range (req.target.ni * req.target.nj)).map (fun k =>
        interpOne field src req.method req.missingValue
          (latAt req.target (k / req.target.ni)) (lonAt req.target (k % req.target.ni)))).countP
        (fun x : ℚ × Bool => x.2),
      if req.target.ni * req.target.nj = 0 then 0 else
        ((((List.range (req.target.ni * req.target.nj)).map (fun k =>
          interpOne field src req.method req.missingValue
            (latAt req.target (k / req.target.ni))
            (lonAt req.target (k % req.target.ni)))).countP
          (fun x : ℚ × Bool => x.2) : ℕ) : ℚ) / ((req.target.ni * req.target.nj : ℕ) : ℚ)⟩ := by
  rw [resample] at h
  split at h
  · simp at h
  · split at h
    · simp at h
    · simp only at h
      injection h with h
      exact h.symm

theorem interpOne_outside {field : List ℚ} {src : GridDescriptor} {m : Method} {mv lat lon : ℚ}
    (h : ¬ inDomain src ((lon - src.lon0) / src.dlon) ((lat - src.lat0) / src.dlat)) :
    interpOne field src m mv lat lon = (mv, true) := by
  simp only [interpOne]
  rw [if_neg h]

/-- C4.  Target points outside the source grid's coverage receive the
caller-configurable missing-value marker (never an extrapolated value); the
missing fraction is reported as missing count over target size; and a target
grid entirely outside the source coverage yields a field that is all marker,
a missing count equal to the target size, and a missing fraction of 1. -/
theorem resample_outside_missing :
    (∀ (field : List ℚ) (src : GridDescriptor) (req : InterpolationRequest)
      (out : ResampleResult), resample field src req = .ok out →
      (∀ k, k < req.target.ni * req.target.nj →
        ¬ inDomain src ((lonAt req.target (k % req.target.ni) - src.lon0) / src.dlon)
          ((latAt req.target (k / req.target.ni) - src.lat0) / src.dlat) →
        out.values.getD k 0 = req.missingValue) ∧
      (0 < req.target.ni * req.target.nj →
        out.missingFraction = (out.missingCount : ℚ) / ((req.target.ni * req.target.nj : ℕ) : ℚ))) ∧
    (∀ (field : List ℚ) (src : GridDescriptor) (req : InterpolationRequest)
      (out : ResampleResult), resample field src req = .ok out →
      0 < req.target.ni * req.target.nj →
      (∀ k, k < req.target.ni * req.target.nj →
        ¬ inDomain src ((lonAt req.target (k % req.target.ni) - src.lon0) / src.dlon)
          ((latAt req.target (k / req.target.ni) - src.lat0) / src.dlat)) →
      out.values = List.replicate (req.target.ni * req.target.nj) req.missingValue ∧
      out.missingCount = req.target.ni * req.target.nj ∧
      out.missingFraction = 1) := by
  constructor
  · intro field src req out h
    rw [resample_ok_form h]
    constructor
    · intro k hk hout
      show (((List.range _).map _).map _).getD k 0 = _
      rw [List.map_map, getD_map_range _ _ _ _ hk]
      show (interpOne field src req.method req.missingValue _ _).1 = _
      rw [interpOne_outside hout]
    · intro htc
      show (if req.target.ni * req.target.nj = 0 then (0 : ℚ) else _) = _
      rw [if_neg (by omega)]
  · intro field src req out h htc hall
    rw [resample_ok_form h]
    have hpts : ∀ k ∈ List.range (req.target.ni * req.target.nj),
        interpOne field src req.method req.missingValue
          (latAt req.target (k / req.target.ni)) (lonAt req.target (k % req.target.ni)) =
          (req.missingValue, true) := by
      intro k hk
      rw [List.mem_range] at hk
      exact interpOne_outside (hall k hk)
    rw [List.map_congr_left hpts]
    refine ⟨?_, ?_, ?_⟩
    · show ((List.range _).map _).map _ = _
      rw [List.map_map]
      rw [List.eq_replicate_iff]
      constructor
      · rw [length_map_range]
      · intro b hb
        rw [List.mem_map] at hb
        obtain ⟨k, -, rfl⟩ := hb
        rfl
    · show ((List.range _).map _).countP _ = _
      rw [List.countP_eq_length.mpr (by
        intro a ha
        rw [List.mem_map] at ha
        obtain ⟨k, -, rfl⟩ := ha
        rfl)]
      rw [length_map_range]
    · show (if req.target.ni * req.target.nj = 0 then (0 : ℚ) else _) = 1
      rw [if_neg (by omega)]
      rw [List.countP_eq_length.mpr (by
        intro a ha
        rw [List.mem_map] at ha
        obtain ⟨k, -, rfl⟩ := ha
        rfl)]
      rw [length_map_range]
      rw [div_self (by
        have : (0 : ℚ) < ((req.target.ni * req.target.nj : ℕ) : ℚ) := by
          exact_mod_cast htc
        exact ne_of_gt this)]

/-- Witness for C4: a 2×2 target grid at latitude/longitude 50, entirely
outside the 4×4 source at the origin, resampled with nearest-neighbor. -/
theorem resample_outside_missing_witness :
    ∃ out, resample demoField demoSrc ⟨demoFarTarget, .nearest, -999⟩ = .ok out ∧
      out.values = List.replicate 4 (-999) ∧ out.missingCount = 4 ∧
      out.missingFraction = 1 := by
  have hok : ∃ out, resample demoField demoSrc ⟨demoFarTarget, .nearest, -999⟩ = .ok out := by
    rw [resample]
    rw [if_neg (by rintro ⟨hc, -⟩; cases hc)]
    rw [if_neg (by rintro ⟨hc, -⟩; cases hc)]
    exact ⟨_, rfl⟩
  obtain ⟨out, hout⟩ := hok
  have hall : ∀ k, k < demoFarTarget.ni * demoFarTarget.nj →
      ¬ inDomain demoSrc ((lonAt demoFarTarget (k % demoFarTarget.ni) - demoSrc.lon0) / demoSrc.dlon)
        ((latAt demoFarTarget (k / demoFarTarget.ni) - demoSrc.lat0) / demoSrc.dlat) := by
    intro k hk
    have hk4 : k < 4 := hk
    rintro ⟨-, hu, -⟩
    rcases k with _ | _ | _ | _ | k
    · norm_num [lonAt, demoSrc, demoFarTarget] at hu
    · norm_num [lonAt, demoSrc, demoFarTarget] at hu
    · norm_num [lonAt, demoSrc, demoFarTarget] at hu
    · norm_num [lonAt, demoSrc, demoFarTarget] at hu
    · omega
  have hres := resample_outside_missing.2 demoField demoSrc ⟨demoFarTarget, .nearest, -999⟩
    out hout (by norm_num [demoFarTarget]) hall
  exact ⟨out, hout, hres.1, hres.2.1, hres.2.2⟩

/-- C3.  Resampling a field onto a target grid identical to the source grid
with bilinear or nearest-neighbor reproduces the source field exactly with
zero missing points; and the concrete 4×4 regular lat/lon source resampled
via bilinear onto a 2×2 target co-located with four source points returns
exactly those four source values with zero missing points. -/
theorem resample_identity :
    (∀ (field : List ℚ) (g : GridDescriptor) (m : Method) (mv : ℚ),
      field.length = pointCount g → g.proj = .latlon →
      (m = .bilinear ∨ m = .nearest) → g.dlon ≠ 0 → g.dlat ≠ 0 →
      resample field g ⟨g, m, mv⟩ = .ok ⟨field, 0, 0⟩) ∧
    resample demoField demoSrc ⟨demoTarget, .bilinear, -999⟩ =
      .ok ⟨[22, 24, 42, 44], 0, 0⟩ := by
  constructor
  · exact resample_same_grid
  · rw [resample]
    rw [if_neg (by rintro ⟨hc, -⟩; cases hc)]
    rw [if_neg (by rintro ⟨-, hc⟩; cases hc)]
    simp only
    have hr4 : List.range (demoTarget.ni * demoTarget.nj) = [0, 1, 2, 3] := rfl
    rw [hr4]
    have e0 : interpOne demoField demoSrc .bilinear (-999)
        (latAt demoTarget (0 / demoTarget.ni)) (lonAt demoTarget (0 % demoTarget.ni)) =
        (demoField.getD 5 0, false) := by
      rw [show latAt demoTarget (0 / demoTarget.ni) = latAt demoSrc 1 by
          norm_num [latAt, demoTarget, demoSrc],
        show lonAt demoTarget (0 % demoTarget.ni) = lonAt demoSrc 1 by
          norm_num [lonAt, demoTarget, demoSrc]]
      exact interpOne_exact demoField demoSrc .bilinear (-999) 1 1 (by norm_num [demoSrc])
        (by norm_num [demoSrc]) (by norm_num [demoSrc]) (by norm_num [demoSrc])
    have e1 : interpOne demoField demoSrc .bilinear (-999)
        (latAt demoTarget (1 / demoTarget.ni)) (lonAt demoTarget (1 % demoTarget.ni)) =
        (demoField.getD 7 0, false) := by
      rw [show latAt demoTarget (1 / demoTarget.ni) = latAt demoSrc 1 by
          norm_num [latAt, demoTarget, demoSrc],
        show lonAt demoTarget (1 % demoTarget.ni) = lonAt demoSrc 3 by
          norm_num [lonAt, demoTarget, demoSrc]]
      exact interpOne_exact demoField demoSrc .bilinear (-999) 3 1 (by norm_num [demoSrc])
        (by norm_num [demoSrc]) (by norm_num [demoSrc]) (by norm_num [demoSrc])
    have e2 : interpOne demoField demoSrc .bilinear (-999)
        (latAt demoTarget (2 / demoTarget.ni)) (lonAt demoTarget (2 % demoTarget.ni)) =
        (demoField.getD 13 0, false) := by
      rw [show latAt demoTarget (2 / demoTarget.ni) = latAt demoSrc 3 by
          norm_num [latAt, demoTarget, demoSrc],
        show lonAt demoTarget (2 % demoTarget.ni) = lonAt demoSrc 1 by
          norm_num [lonAt, demoTarget, demoSrc]]
      exact interpOne_exact demoField demoSrc .bilinear (-999) 1 3 (by norm_num [demoSrc])
        (by norm_num [demoSrc]) (by norm_num [demoSrc]) (by norm_num [demoSrc])
    have e3 : interpOne demoField demoSrc .bilinear (-999)
        (latAt demoTarget (3 / demoTarget.ni)) (lonAt demoTarget (3 % demoTarget.ni)) =
        (demoField.getD 15 0, false) := by
      rw [show latAt demoTarget (3 / demoTarget.ni) = latAt demoSrc 3 by
          norm_num [latAt, demoTarget, demoSrc],
        show lonAt demoTarget (3 % demoTarget.ni) = lonAt demoSrc 3 by
          norm_num [lonAt, demoTarget, demoSrc]]
      exact interpOne_exact demoField demoSrc .bilinear (-999) 3 3 (by norm_num [demoSrc])
        (by norm_num [demoSrc]) (by norm_num [demoSrc]) (by norm_num [demoSrc])
    simp only [List.map_cons, List.map_nil]
    rw [e0, e1, e2, e3]
    norm_num [demoTarget, List.countP_cons, List.countP_nil,
      show demoField.getD 5 0 = 22 from rfl, show demoField.getD 7 0 = 24 from rfl,
      show demoField.getD 13 0 = 42 from rfl, show demoField.getD 15 0 = 44 from rfl]
    exact ⟨rfl, rfl, rfl, rfl⟩

/-- Witness for C3: the identity clause at the concrete 4×4 grid and field. -/
theorem resample_identity_witness :
    demoField.length = pointCount demoSrc ∧ demoSrc.proj = .latlon ∧
    demoSrc.dlon ≠ 0 ∧ demoSrc.dlat ≠ 0 ∧
    resample demoField demoSrc ⟨demoSrc, .nearest, -999⟩ = .ok ⟨demoField, 0, 0⟩ :=
  ⟨rfl, rfl, by norm_num [demoSrc], by norm_num [demoSrc],
   resample_identity.1 demoField demoSrc .nearest (-999) rfl rfl (Or.inr rfl)
     (by norm_num [demoSrc]) (by norm_num [demoSrc])⟩

/-- Witness for C10: the universally quantified capability clauses at
concrete inputs. -/
theorem build_capabilities_witness :
    ((⟨40, 8, 0, 0, 0⟩ : CodecParameters).templateNum = 40 ∨
      (⟨40, 8, 0, 0, 0⟩ : CodecParameters).templateNum = 41 ∨
      (⟨40, 8, 0, 0, 0⟩ : CodecParameters).templateNum = 42) ∧
    decode [1, 2] ⟨40, 8, 0, 0, 0⟩ 2 ≠ .error .unsupportedCodec ∧
    (⟨demoSrc, .spectral, 0⟩ : InterpolationRequest).method = .spectral ∧
    resample [] demoSrc ⟨demoSrc, .spectral, 0⟩ ≠ .error .unsupportedMethod := by
  obtain ⟨-, -, -, -, -, -, -, -, -, -, hdec, hres⟩ := build_capabilities
  exact ⟨Or.inl rfl, hdec [1, 2] ⟨40, 8, 0, 0, 0⟩ 2 (Or.inl rfl), rfl,
    hres [] demoSrc ⟨demoSrc, .spectral, 0⟩ rfl⟩

end Grib2
